import Mathlib

/-! Tetrix software renderer (`src/renderer.c`): embedding and verified properties.

The renderer is embedded shallowly.  C `int` values are mathematical integers
(`Int`; signed overflow is undefined behaviour in C and is not modelled), the
8-bit colour channels are natural numbers reduced `% 256` where a value is
stored into a `uint_fast8_t` / `uint8_t`, and the pixel storage of a buffer is a
`List` indexed by the pointer offset from `data`.  A read or write through a
pointer outside the storage is a `Fault.out_of_bounds`; a loop that has not
left after the given number of rounds is a `Fault.out_of_fuel`.  For the buffer
constructors the heap is a list of `malloc`ed blocks and a pointer is a block
number.
-/

namespace Tetrix

/-! ## Data model -/

/-- Modelled from the spec: `ren_pixel_t` is declared in `renderer.h`, which is
not part of the sources; it has four unsigned 8-bit channels `r`, `g`, `b`,
`a`. -/
structure ren_pixel_t where
  r : Nat
  g : Nat
  b : Nat
  a : Nat
deriving DecidableEq, Repr

/-- The channel values an 8-bit pixel can hold. -/
def ren_pixel_t.valid (p : ren_pixel_t) : Prop :=
  p.r < 256 ∧ p.g < 256 ∧ p.b < 256 ∧ p.a < 256

instance (p : ren_pixel_t) : Decidable p.valid := by
  unfold ren_pixel_t.valid; infer_instance

/-- Modelled from the spec: `ren_rect_t` is declared in `renderer.h`; an integer
rectangle `(x, y, w, h)`. -/
structure ren_rect_t where
  x : Int
  y : Int
  w : Int
  h : Int
deriving DecidableEq, Repr

/-- Modelled from the spec: `ren_buffer_t` is declared in `renderer.h`; `data`
points to `width * height` pixels, row-major with stride `width`. -/
structure ren_buffer_t where
  width : Int
  height : Int
  data : List ren_pixel_t
deriving DecidableEq, Repr

/-- Modelled from the spec: `ren_font_t` is declared in `renderer.h`; glyph cell
size and the atlas buffer. -/
structure ren_font_t where
  glyph_w : Int
  glyph_h : Int
  buffer : ren_buffer_t
deriving DecidableEq, Repr

/-- Modelled from the spec: `ren_transform_t` is declared in `renderer.h`; angle,
scale and origin of a blit.  Its members are C `float`s; they are modelled by
exact rational numbers, which is what single precision arithmetic computes as
long as every value that occurs is an integer of magnitude at most `2 ^ 24`
(as it is for the identity transform on buffers of at most that size). -/
structure ren_transform_t where
  ang : ℚ
  sx : ℚ
  sy : ℚ
  ox : ℚ
  oy : ℚ
deriving DecidableEq

/-- Source constant `REN_NULL_TRANSFORM` (`renderer.c`, lines 31-34). -/
def REN_NULL_TRANSFORM : ren_transform_t :=
  { ang := 0, sx := 1, sy := 1, ox := 0, oy := 0 }

/-- Modelled from the spec: the `translate` member of `ren_state_t` (declared in
`renderer.h`), an integer offset with members `x` and `y`. -/
structure ren_translate_t where
  x : Int
  y : Int
deriving DecidableEq, Repr

/-- Modelled from the spec: `ren_state_t` is declared in `renderer.h`; the draw
state read by every drawing routine.  `blend` is the function pointer
`void (*)(ren_pixel_t* dst, ren_pixel_t src)`, here the function from the old
destination pixel and the source pixel to the new destination pixel. -/
structure ren_state_t where
  translate : ren_translate_t
  color : ren_pixel_t
  blend : ren_pixel_t → ren_pixel_t → ren_pixel_t
  clip : ren_rect_t
  font : Option ren_font_t
  target : ren_buffer_t

/-- Ways in which a run of the embedded code fails to produce a buffer. -/
inductive Fault where
  | out_of_bounds
  | out_of_fuel
deriving DecidableEq, Repr

deriving instance DecidableEq for Except

/-! ## Integer helpers (`renderer.c`, lines 11-19) -/

/-- Source function `max` (`renderer.c`, lines 11-14). -/
protected def max (a b : Int) : Int := if a > b then a else b

/-- Source function `min` (`renderer.c`, lines 16-19). -/
protected def min (a b : Int) : Int := if a < b then a else b

/-! ## Blend functions (`renderer.c`, lines 101-176) -/

/-- Conversion of an `int` to `uint_fast8_t`, taken to be 8 bits wide (as it is
in glibc): reduction modulo 256. -/
def to_u8 (z : Int) : Nat := (z % 256).toNat

/-- Source function `color_add`: `min(a + b, 0xFF)` in `int`, returned as
`uint_fast8_t`. -/
def color_add (a b : Nat) : Nat :=
  to_u8 (Tetrix.min ((a : Int) + (b : Int)) 0xFF)

/-- Source function `color_sub`: `max(a - b, 0x00)` in `int`, returned as
`uint_fast8_t`. -/
def color_sub (a b : Nat) : Nat :=
  to_u8 (Tetrix.max ((a : Int) - (b : Int)) 0x00)

/-- Source function `color_mul`: `(a * b) >> 8` on non-negative operands,
returned as `uint_fast8_t`. -/
def color_mul (a b : Nat) : Nat :=
  ((a * b) >>> 8) % 256

/-- Source function `ren_blend_alpha`; the argument `0xFF - src.a` is an `int`
converted to `uint_fast8_t`. -/
def ren_blend_alpha (dst src : ren_pixel_t) : ren_pixel_t :=
  { r := color_add (color_mul dst.r (to_u8 (0xFF - (src.a : Int)))) (color_mul src.r src.a)
    g := color_add (color_mul dst.g (to_u8 (0xFF - (src.a : Int)))) (color_mul src.g src.a)
    b := color_add (color_mul dst.b (to_u8 (0xFF - (src.a : Int)))) (color_mul src.b src.a)
    a := color_add (color_mul dst.a (to_u8 (0xFF - (src.a : Int)))) src.a }

/-- Source function `ren_blend_replace`. -/
def ren_blend_replace (_dst src : ren_pixel_t) : ren_pixel_t :=
  { r := color_mul src.r src.a
    g := color_mul src.g src.a
    b := color_mul src.b src.a
    a := src.a }

/-- Source function `ren_blend_add`: the alpha member of `dst` is not assigned. -/
def ren_blend_add (dst src : ren_pixel_t) : ren_pixel_t :=
  { dst with
    r := color_add dst.r (color_mul src.r src.a)
    g := color_add dst.g (color_mul src.g src.a)
    b := color_add dst.b (color_mul src.b src.a) }

/-- Source function `ren_blend_subtract`: the alpha member of `dst` is not assigned. -/
def ren_blend_subtract (dst src : ren_pixel_t) : ren_pixel_t :=
  { dst with
    r := color_sub dst.r (color_mul src.r src.a)
    g := color_sub dst.g (color_mul src.g src.a)
    b := color_sub dst.b (color_mul src.b src.a) }

/-- Source function `ren_blend_multiply`. -/
def ren_blend_multiply (dst src : ren_pixel_t) : ren_pixel_t :=
  { r := color_mul src.r dst.r
    g := color_mul src.g dst.g
    b := color_mul src.b dst.b
    a := color_mul src.a dst.a }

/-- Source function `ren_blend_lighten`. -/
def ren_blend_lighten (dst src : ren_pixel_t) : ren_pixel_t :=
  { r := if src.r > dst.r then src.r else dst.r
    g := if src.g > dst.g then src.g else dst.g
    b := if src.b > dst.b then src.b else dst.b
    a := if src.a > dst.a then src.a else dst.a }

/-- Source function `ren_blend_darken`. -/
def ren_blend_darken (dst src : ren_pixel_t) : ren_pixel_t :=
  { r := if src.r < dst.r then src.r else dst.r
    g := if src.g < dst.g then src.g else dst.g
    b := if src.b < dst.b then src.b else dst.b
    a := if src.a < dst.a then src.a else dst.a }

/-- Source function `ren_blend_screen`. -/
def ren_blend_screen (dst src : ren_pixel_t) : ren_pixel_t :=
  { r := color_add (color_mul dst.r (to_u8 (0xFF - (src.r : Int)))) (color_mul src.r src.a)
    g := color_add (color_mul dst.g (to_u8 (0xFF - (src.g : Int)))) (color_mul src.g src.a)
    b := color_add (color_mul dst.b (to_u8 (0xFF - (src.b : Int)))) (color_mul src.b src.a)
    a := color_add (color_mul dst.a (to_u8 (0xFF - (src.a : Int)))) src.a }

/-! ## Pixel storage access -/

/-- Read through the pointer `data + i`. -/
def load (data : List ren_pixel_t) (i : Int) : Except Fault ren_pixel_t :=
  if 0 ≤ i ∧ i < data.length then
    match data[i.toNat]? with
    | some v => .ok v
    | none => .error .out_of_bounds
  else .error .out_of_bounds

/-- Write through the pointer `data + i`. -/
def store (data : List ren_pixel_t) (i : Int) (v : ren_pixel_t) :
    Except Fault (List ren_pixel_t) :=
  if 0 ≤ i ∧ i < data.length then .ok (data.set i.toNat v)
  else .error .out_of_bounds

/-- The call `blend(data + i, src)` of a blend function: it reads the pixel at
`data + i` and writes the blended pixel back to the same place. -/
def blend_at (blend : ren_pixel_t → ren_pixel_t → ren_pixel_t)
    (data : List ren_pixel_t) (i : Int) (src : ren_pixel_t) :
    Except Fault (List ren_pixel_t) :=
  match load data i with
  | .ok dst => store data i (blend dst src)
  | .error e => .error e

/-- The draw state after the target's pixel storage has become `data`. -/
def ren_state_t.with_data (st : ren_state_t) (data : List ren_pixel_t) : ren_state_t :=
  { st with target := { st.target with data := data } }

/-! ## Rendering routines (`renderer.c`, lines 309-514) -/

/-- Inner loop of `ren_fill`, `for (int i = 0; i < clip.w; ++i, *p++ = col);`:
`n` is the number of rounds, `clip.w` when that is positive and `0` otherwise.
Returns the advanced pointer offset and the storage. -/
def ren_fill_row (col : ren_pixel_t) :
    Nat → Int → List ren_pixel_t → Except Fault (Int × List ren_pixel_t)
  | 0, p, data => .ok (p, data)
  | n + 1, p, data =>
    match store data p col with
    | .ok data1 => ren_fill_row col n (p + 1) data1
    | .error e => .error e

/-- Outer loop of `ren_fill`,
`while (p < data + (clip.y + clip.h) * target->width)`, run for at most `fuel`
rounds. -/
def ren_fill_loop (st : ren_state_t) (col : ren_pixel_t) :
    Nat → Int → List ren_pixel_t → Except Fault (List ren_pixel_t)
  | 0, _, _ => .error .out_of_fuel
  | fuel + 1, p, data =>
    if p < (st.clip.y + st.clip.h) * st.target.width then
      match ren_fill_row col st.clip.w.toNat p data with
      | .ok (p1, data1) => ren_fill_loop st col fuel p1 data1
      | .error e => .error e
    else .ok data

/-- Source function `ren_fill`: the pointer starts at `data + clip.y`. -/
def ren_fill (fuel : Nat) (st : ren_state_t) (col : ren_pixel_t) :
    Except Fault (List ren_pixel_t) :=
  ren_fill_loop st col fuel st.clip.y st.target.data

/-- Source function `ren_plot`. -/
def ren_plot (st : ren_state_t) (x y : Int) : Except Fault (List ren_pixel_t) :=
  let x := x + st.translate.x
  let y := y + st.translate.y
  if x ≥ st.clip.x ∧ x < st.clip.x + st.clip.w
      ∧ y ≥ st.clip.y ∧ y < st.clip.y + st.clip.h then
    blend_at st.blend st.target.data (x + y * st.target.width) st.color
  else .ok st.target.data

/-- Inner loop of `ren_rect`: the pointer `p` runs from its start up to (not
including) the end pointer, `n` being the distance between the two when that is
positive and `0` otherwise; every round is `blend(p++, color)`. -/
def ren_rect_row (st : ren_state_t) :
    Nat → Int → List ren_pixel_t → Except Fault (List ren_pixel_t)
  | 0, _, data => .ok data
  | n + 1, p, data =>
    match blend_at st.blend data p st.color with
    | .ok data1 => ren_rect_row st n (p + 1) data1
    | .error e => .error e

/-- Outer loop of `ren_rect`, `while (y < y1) { ...; ++y; }`, `n` being
`y1 - y` when that is positive and `0` otherwise. -/
def ren_rect_rows (st : ren_state_t) (x x1 : Int) :
    Nat → Int → List ren_pixel_t → Except Fault (List ren_pixel_t)
  | 0, _, data => .ok data
  | n + 1, y, data =>
    match ren_rect_row st
        ((x1 + y * st.target.width) - (x + y * st.target.width)).toNat
        (x + y * st.target.width) data with
    | .ok data1 => ren_rect_rows st x x1 n (y + 1) data1
    | .error e => .error e

/-- Source function `ren_rect`. -/
def ren_rect (st : ren_state_t) (x y w h : Int) : Except Fault (List ren_pixel_t) :=
  let x := x + st.translate.x
  let y := y + st.translate.y
  let x1 := x + w
  let w := st.clip.x + st.clip.w
  let x1 := if x1 > w then w else x1
  let y1 := y + h
  let h := st.clip.y + st.clip.h
  let y1 := if y1 > h then h else y1
  let x := if x < st.clip.x then st.clip.x else x
  let y := if y < st.clip.y then st.clip.y else y
  ren_rect_rows st x x1 (y1 - y).toNat y st.target.data

/-- The C conversion `(int)` of a `float` / `double`: truncation toward zero. -/
def float_to_int (q : ℚ) : Int := if 0 ≤ q then ⌊q⌋ else ⌈q⌉

/-- Inner loop of `ren_buffer`, `for (int tx = beg_x; tx < end_x; ++tx)`, `n`
being `end_x - tx` when that is positive and `0` otherwise.  The source pixel
is read before the blend call. -/
def ren_buffer_row (st : ren_state_t) (buf : ren_buffer_t) (rect : ren_rect_t)
    (tr : ren_transform_t) (sin cos : ℚ) (px ty tar_y : Int) :
    Nat → Int → List ren_pixel_t → Except Fault (List ren_pixel_t)
  | 0, _, data => .ok data
  | n + 1, tx, data =>
    let drx : ℚ := ((tx : ℚ) * cos - (ty : ℚ) * sin) / tr.sx + tr.ox
    let dry : ℚ := ((tx : ℚ) * sin + (ty : ℚ) * cos) / tr.sy + tr.oy
    if drx ≥ 0 ∧ dry ≥ 0 ∧ drx < (rect.w : ℚ) ∧ dry < (rect.h : ℚ) then
      match load buf.data
          (float_to_int drx + rect.x + (float_to_int dry + rect.y) * buf.width) with
      | .ok src =>
        match blend_at st.blend data (tx + px + tar_y) src with
        | .ok data1 => ren_buffer_row st buf rect tr sin cos px ty tar_y n (tx + 1) data1
        | .error e => .error e
      | .error e => .error e
    else ren_buffer_row st buf rect tr sin cos px ty tar_y n (tx + 1) data

/-- Outer loop of `ren_buffer`, `for (int ty = beg_y; ty < end_y; ++ty)`, `n`
being `end_y - ty` when that is positive and `0` otherwise. -/
def ren_buffer_rows (st : ren_state_t) (buf : ren_buffer_t) (rect : ren_rect_t)
    (tr : ren_transform_t) (sin cos : ℚ) (px py beg_x end_x : Int) :
    Nat → Int → List ren_pixel_t → Except Fault (List ren_pixel_t)
  | 0, _, data => .ok data
  | n + 1, ty, data =>
    let tar_y := (ty + py) * st.target.width
    match ren_buffer_row st buf rect tr sin cos px ty tar_y (end_x - beg_x).toNat beg_x data with
    | .ok data1 => ren_buffer_rows st buf rect tr sin cos px py beg_x end_x n (ty + 1) data1
    | .error e => .error e

/-- Source function `ren_buffer` (the blit).  `REN_WIDTH`, `REN_HEIGHT` (macros of
`renderer.h`) and `fastsin`, `fastcos` (`fastmath.h`) are not part of the
sources and are parameters.  `rx0 .. ry3` are the corner coordinates after the
`rotate` macro.  The source buffer is taken to be distinct from the target. -/
def ren_buffer (REN_WIDTH REN_HEIGHT : Int) (fastsin fastcos : ℚ → ℚ)
    (st : ren_state_t) (buf : ren_buffer_t) (px py : Int) (rect : ren_rect_t)
    (tr : ren_transform_t) : Except Fault (List ren_pixel_t) :=
  let px := px + st.translate.x
  let py := py + st.translate.y
  let sin := -fastsin tr.ang
  let cos := fastcos tr.ang
  let sin_sx := sin * tr.sx
  let sin_sy := sin * tr.sy
  let cos_sx := cos * tr.sx
  let cos_sy := cos * tr.sy
  let x0 : ℚ := -tr.ox
  let y0 : ℚ := -tr.oy
  let x1 : ℚ := rect.w - tr.ox
  let y1 : ℚ := -tr.oy
  let x2 : ℚ := -tr.ox
  let y2 : ℚ := rect.h - tr.oy
  let x3 : ℚ := rect.w - tr.ox
  let y3 : ℚ := rect.h - tr.oy
  let rx0 := cos_sx * x0 + sin_sy * y0
  let ry0 := cos_sy * y0 - sin_sx * x0
  let rx1 := cos_sx * x1 + sin_sy * y1
  let ry1 := cos_sy * y1 - sin_sx * x1
  let rx2 := cos_sx * x2 + sin_sy * y2
  let ry2 := cos_sy * y2 - sin_sx * x2
  let rx3 := cos_sx * x3 + sin_sy * y3
  let ry3 := cos_sy * y3 - sin_sx * x3
  let beg_x := Tetrix.max (-px) (float_to_int (min rx0 (min rx1 (min rx2 rx3))))
  let beg_y := Tetrix.max (-py) (float_to_int (min ry0 (min ry1 (min ry2 ry3))))
  let end_x := Tetrix.min (float_to_int (max rx0 (max rx1 (max rx2 rx3)))) (REN_WIDTH - 1 - px)
  let end_y := Tetrix.min (float_to_int (max ry0 (max ry1 (max ry2 ry3)))) (REN_HEIGHT - 1 - py)
  ren_buffer_rows st buf rect tr sin cos px py beg_x end_x (end_y - beg_y).toNat beg_y
    st.target.data

/-! ## Vocabulary of the specification -/

/-- The clip rectangle lies inside the target buffer, whose storage holds
`width * height` pixels. -/
def ren_state_t.clip_in_target (st : ren_state_t) : Prop :=
  0 ≤ st.target.width ∧ 0 ≤ st.target.height
    ∧ (st.target.data.length : Int) = st.target.width * st.target.height
    ∧ 0 ≤ st.clip.x ∧ 0 ≤ st.clip.y
    ∧ st.clip.x + st.clip.w ≤ st.target.width
    ∧ st.clip.y + st.clip.h ≤ st.target.height

instance (st : ren_state_t) : Decidable st.clip_in_target := by
  unfold ren_state_t.clip_in_target; infer_instance

/-- The point `(x, y)` of the target lies inside the clip rectangle. -/
def ren_state_t.in_clip (st : ren_state_t) (x y : Int) : Prop :=
  st.clip.x ≤ x ∧ x < st.clip.x + st.clip.w ∧ st.clip.y ≤ y ∧ y < st.clip.y + st.clip.h

instance (st : ren_state_t) (x y : Int) : Decidable (st.in_clip x y) := by
  unfold ren_state_t.in_clip; infer_instance

/-- Pixel at column `c`, row `r` of a buffer (all-zero outside the storage). -/
def ren_buffer_t.pixel (buf : ren_buffer_t) (c r : Int) : ren_pixel_t :=
  buf.data.getD (c + r * buf.width).toNat ⟨0, 0, 0, 0⟩

/-- Saturating addition of the specification, `min (a + b) 255`. -/
def saturating_add (a b : Nat) : Nat := if a + b > 255 then 255 else a + b

/-- Channel multiply of the specification, `(a * b) >> 8`. -/
def mul (a b : Nat) : Nat := (a * b) >>> 8

/-! ## Concrete inputs -/

/-- A `4 × 4` buffer of all-zero pixels, as `ren_blank_buffer(4, 4)` returns. -/
def blank4 : ren_buffer_t := ⟨4, 4, List.replicate 16 ⟨0, 0, 0, 0⟩⟩

/-- Opaque white. -/
def white : ren_pixel_t := ⟨255, 255, 255, 255⟩

/-- Draw state on `blank4` with colour `white`, no translation, blend `replace`
and the given clip rectangle. -/
def state4 (clip : ren_rect_t) : ren_state_t :=
  { translate := ⟨0, 0⟩, color := white, blend := ren_blend_replace, clip := clip,
    font := none, target := blank4 }

/-- A source buffer of `w × h` opaque white pixels. -/
def white_buffer (w h : Nat) : ren_buffer_t := ⟨w, h, List.replicate (w * h) white⟩

/-- A stand-in for `fastsin` with `fastsin 0 = 0`. -/
def sin_at_zero (_ : ℚ) : ℚ := 0

/-- A stand-in for `fastcos` with `fastcos 0 = 1`. -/
def cos_at_zero (_ : ℚ) : ℚ := 1


/-! ## Buffers on the heap (`renderer.c`, lines 182-206) -/

/-- Modelled from the spec: the `ren_buffer_t` header as it lies in memory, with
`data` a pointer.  The pointer is the number of the heap block whose pixel
storage (the storage that follows that block's header) it points to. -/
structure ren_buffer_header_t where
  width : Int
  height : Int
  data : Nat
deriving DecidableEq, Repr

/-- One `malloc`ed block: a buffer header followed by the pixels that lie
behind it in the same block (none for the header-only block of
`ren_shared_buffer`). -/
structure heap_block where
  header : ren_buffer_header_t
  pixels : List ren_pixel_t
deriving DecidableEq, Repr

/-- Source function `ren_blank_buffer`: a fresh block at the end of the heap
whose `data` points to its own zeroed pixel storage.  Returns the heap and
the new block's number (the returned pointer). -/
def ren_blank_buffer (heap : List heap_block) (width height : Int) :
    List heap_block × Nat :=
  (heap ++ [{ header := { width := width, height := height, data := heap.length },
              pixels := List.replicate (width * height).toNat ⟨0, 0, 0, 0⟩ }],
    heap.length)

/-- Source function `ren_copy_buffer`: a fresh block filled by one `memcpy` of
`sizeof(ren_buffer_t) + width * height` pixels from the block `src`, that is the
header of `src` as it is (its `data` pointer included) and the pixels that
follow it in the block of `src`. -/
def ren_copy_buffer (heap : List heap_block) (src : Nat) :
    Except Fault (List heap_block × Nat) :=
  match heap[src]? with
  | none => .error .out_of_bounds
  | some b =>
    if b.pixels.length < (b.header.width * b.header.height).toNat then
      .error .out_of_bounds
    else
      .ok (heap ++ [{ header := b.header,
                      pixels := b.pixels.take (b.header.width * b.header.height).toNat }],
        heap.length)

/-- The pixel sequence read through `buf->data`. -/
def heap_pixels (heap : List heap_block) (buf : Nat) : Option (List ren_pixel_t) :=
  match heap[buf]? with
  | none => none
  | some b =>
    match heap[b.header.data]? with
    | none => none
    | some target => some target.pixels

/-- The assignment `buf->data[i] = v`. -/
def heap_write (heap : List heap_block) (buf : Nat) (i : Int) (v : ren_pixel_t) :
    Except Fault (List heap_block) :=
  match heap[buf]? with
  | none => .error .out_of_bounds
  | some b =>
    match heap[b.header.data]? with
    | none => .error .out_of_bounds
    | some target =>
      match store target.pixels i v with
      | .ok pixels => .ok (heap.set b.header.data { target with pixels := pixels })
      | .error e => .error e

/-! ## Outline, filled circle and text (`renderer.c`, lines 358-366, 405-438, 516-531) -/

/-- A sequence of `ren_rect` calls `(x, y, w, h)`, each on the storage left by
the one before. -/
def ren_rect_seq (st : ren_state_t) :
    List (Int × Int × Int × Int) → List ren_pixel_t → Except Fault (List ren_pixel_t)
  | [], data => .ok data
  | (x, y, w, h) :: calls, data =>
    match ren_rect (st.with_data data) x y w h with
    | .ok data1 => ren_rect_seq st calls data1
    | .error e => .error e

/-- The four `ren_rect` calls of `ren_box`, in order. -/
def ren_box_calls (x y w h : Int) : List (Int × Int × Int × Int) :=
  [(x, y, 1, h), (x + w - 1, y, 1, h), (x + 1, y, w - 2, 1), (x + 1, y + h - 1, w - 2, 1)]

/-- Source function `ren_box`. -/
def ren_box (st : ren_state_t) (x y w h : Int) : Except Fault (List ren_pixel_t) :=
  ren_rect_seq st (ren_box_calls x y w h) st.target.data

/-- Macro `draw_row` of `ren_circ`.  `rows` is the array `unsigned rows[512]`,
`calls` the `ren_rect` calls made so far.  `y_tmp >> 5` and `y_tmp & 31` are
taken for `y_tmp >= 0` only (the `&&` guards them) and are `y_tmp / 32` and
`y_tmp % 32`; `~rows[i] & (1 << b)` is non-zero when bit `b` of `rows[i]` is
clear, and `rows[i] |= 1 << b` sets that bit. -/
def draw_row (x y len : Int) (rows : List Nat) (calls : List (Int × Int × Int × Int)) :
    Except Fault (List Nat × List (Int × Int × Int × Int)) :=
  let y_tmp := y
  if y_tmp ≥ 0 then
    match rows[(y_tmp >>> (5 : Nat)).toNat]? with
    | none => .error .out_of_bounds
    | some word =>
      if ¬ word.testBit (y_tmp % 32).toNat then
        .ok (rows.set (y_tmp >>> (5 : Nat)).toNat (word ||| (1 <<< (y_tmp % 32).toNat)),
          calls ++ [(x, y_tmp, len, 1)])
      else .ok (rows, calls)
  else .ok (rows, calls)

/-- Loop of `ren_circ`, `for (int y_tmp; dx >= dy; )`, run for at most `fuel`
tests of its condition; returns the `ren_rect` calls in order.  `dx << 1` is
`dx * 2`. -/
def ren_circ_loop (x y : Int) :
    Nat → Int → Int → Int → List Nat → List (Int × Int × Int × Int) →
      Except Fault (List (Int × Int × Int × Int))
  | 0, _, _, _, _, _ => .error .out_of_fuel
  | fuel + 1, dx, dy, radius_err, rows, calls =>
    if dx ≥ dy then
      match draw_row (x - dx) (y + dy) (dx * 2) rows calls with
      | .error e => .error e
      | .ok (rows1, calls1) =>
      match draw_row (x - dx) (y - dy) (dx * 2) rows1 calls1 with
      | .error e => .error e
      | .ok (rows2, calls2) =>
      match draw_row (x - dy) (y + dx) (dy * 2) rows2 calls2 with
      | .error e => .error e
      | .ok (rows3, calls3) =>
      match draw_row (x - dy) (y - dx) (dy * 2) rows3 calls3 with
      | .error e => .error e
      | .ok (rows4, calls4) =>
        if radius_err < 0 then
          ren_circ_loop x y fuel dx (dy + 1) (radius_err + (2 * (dy + 1) + 1)) rows4 calls4
        else
          ren_circ_loop x y fuel (dx - 1) (dy + 1)
            (radius_err + 2 * ((dy + 1) - (dx - 1) + 1)) rows4 calls4
    else .ok calls

/-- The test with which `ren_circ` returns early: the bounding box of the
untranslated circle against the clip rectangle. -/
def ren_circ_rejects (clip : ren_rect_t) (x y r : Int) : Prop :=
  x + |r| < clip.x ∨ x - |r| > clip.x + clip.w ∨ y + |r| < clip.y ∨ y - |r| > clip.y + clip.h

instance (clip : ren_rect_t) (x y r : Int) : Decidable (ren_circ_rejects clip x y r) := by
  unfold ren_circ_rejects; infer_instance

/-- The `ren_rect` calls made by `ren_circ`, in order.  The loop tests its
condition at most `|r| + 2` times. -/
def ren_circ_calls (clip : ren_rect_t) (x y r : Int) :
    Except Fault (List (Int × Int × Int × Int)) :=
  let dx := |r|
  let dy := 0
  let radius_err := 1 - dx
  let rows : List Nat := List.replicate 512 0
  if x + dx < clip.x ∨ x - dx > clip.x + clip.w ∨ y + dx < clip.y ∨ y - dx > clip.y + clip.h
  then .ok []
  else ren_circ_loop x y (dx + 2).toNat dx dy radius_err rows []

/-- Source function `ren_circ`. -/
def ren_circ (st : ren_state_t) (x y r : Int) : Except Fault (List ren_pixel_t) :=
  match ren_circ_calls st.clip x y r with
  | .ok calls => ren_rect_seq st calls st.target.data
  | .error e => .error e

/-- The row loop of `ren_circ` run without the bounding-box test: the second
routine of the comparison "circ with the rejection against circ without it". -/
def ren_circ_unguarded (st : ren_state_t) (x y r : Int) : Except Fault (List ren_pixel_t) :=
  match ren_circ_loop x y (|r| + 2).toNat |r| 0 (1 - |r|) (List.replicate 512 0) [] with
  | .ok calls => ren_rect_seq st calls st.target.data
  | .error e => .error e

/-- Loop of `ren_text`, `for (int i = 0; text[i] != '\0'; ++i)`, as the list of
the `ren_buffer` calls `(px, py, rect)` in order.  `text` is the character
array from index `i` on; running off it without meeting the terminating NUL is
an out-of-bounds read. -/
def ren_text_calls (font : ren_font_t) (x y : Int) :
    List Nat → Int → Except Fault (List (Int × Int × ren_rect_t))
  | [], _ => .error .out_of_bounds
  | c :: text, i =>
    if c = 0 then .ok []
    else
      match ren_text_calls font x y text (i + 1) with
      | .ok calls =>
        .ok ((x + (i * font.glyph_w + 1), y, ⟨0, 4 * 16, font.glyph_w, font.glyph_h⟩) :: calls)
      | .error e => .error e

/-- A sequence of `ren_buffer` calls with the identity transform from one
source buffer, each on the storage left by the one before. -/
def ren_buffer_seq (REN_WIDTH REN_HEIGHT : Int) (fastsin fastcos : ℚ → ℚ)
    (st : ren_state_t) (buf : ren_buffer_t) :
    List (Int × Int × ren_rect_t) → List ren_pixel_t → Except Fault (List ren_pixel_t)
  | [], data => .ok data
  | (px, py, rect) :: calls, data =>
    match ren_buffer REN_WIDTH REN_HEIGHT fastsin fastcos (st.with_data data) buf px py rect
        REN_NULL_TRANSFORM with
    | .ok data1 => ren_buffer_seq REN_WIDTH REN_HEIGHT fastsin fastcos st buf calls data1
    | .error e => .error e

/-- Source function `ren_text`; the transform argument is not used.  Without a
font, `ren_state.font` is a null pointer. -/
def ren_text (REN_WIDTH REN_HEIGHT : Int) (fastsin fastcos : ℚ → ℚ)
    (st : ren_state_t) (text : List Nat) (x y : Int) (_tr : ren_transform_t) :
    Except Fault (List ren_pixel_t) :=
  match st.font with
  | none => .error .out_of_bounds
  | some font =>
    match ren_text_calls font x y text 0 with
    | .ok calls =>
      ren_buffer_seq REN_WIDTH REN_HEIGHT fastsin fastcos st font.buffer calls st.target.data
    | .error e => .error e

/-! ## Further vocabulary and concrete inputs -/

/-- Bit `y % 32` of word `y / 32` of the row bitmask is set. -/
def row_marked (rows : List Nat) (y : Int) : Prop :=
  (rows.getD (y >>> (5 : Nat)).toNat 0).testBit (y % 32).toNat = true

/-- The target pixel `(i, j)` lies in the translated rectangle of the `ren_rect`
call `c = (x, y, w, h)`. -/
def rect_covers (st : ren_state_t) (c : Int × Int × Int × Int) (i j : Int) : Prop :=
  c.1 + st.translate.x ≤ i ∧ i < c.1 + st.translate.x + c.2.2.1
    ∧ c.2.1 + st.translate.y ≤ j ∧ j < c.2.1 + st.translate.y + c.2.2.2

instance (st : ren_state_t) (c : Int × Int × Int × Int) (i j : Int) :
    Decidable (rect_covers st c i j) := by
  unfold rect_covers; infer_instance

/-- The target pixel `(i, j)` lies on the one pixel thick border of the
translated rectangle `[x, x + w) × [y, y + h)`. -/
def on_border (st : ren_state_t) (x y w h i j : Int) : Prop :=
  (x + st.translate.x ≤ i ∧ i < x + st.translate.x + w
    ∧ y + st.translate.y ≤ j ∧ j < y + st.translate.y + h)
  ∧ (i = x + st.translate.x ∨ i = x + st.translate.x + w - 1
    ∨ j = y + st.translate.y ∨ j = y + st.translate.y + h - 1)

instance (st : ren_state_t) (x y w h i j : Int) : Decidable (on_border st x y w h i j) := by
  unfold on_border; infer_instance

/-- The state `state4` with the whole target as clip rectangle and the
translation `(2, 0)`. -/
def translated_state4 : ren_state_t :=
  { state4 ⟨0, 0, 4, 4⟩ with translate := ⟨2, 0⟩ }

/-- The state `state4` with the whole target as clip rectangle, blend `add` and
the colour `(16, 16, 16, 255)`, of which `add` adds 15 per channel. -/
def add_state4 : ren_state_t :=
  { state4 ⟨0, 0, 4, 4⟩ with blend := ren_blend_add, color := ⟨16, 16, 16, 255⟩ }

/-- A draw state on a `1 × 16385` all-zero target with the whole target as clip
rectangle. -/
def tall_state : ren_state_t :=
  { translate := ⟨0, 0⟩, color := white, blend := ren_blend_replace,
    clip := ⟨0, 0, 1, 16385⟩, font := none,
    target := ⟨1, 16385, List.replicate 16385 ⟨0, 0, 0, 0⟩⟩ }

/-- The pixel value after the `ren_rect` calls `calls`, one after the other, at a
target pixel `(i, j)` that held `v`: every call that covers the pixel inside the
clip rectangle blends the current colour into it. -/
def blend_calls (st : ren_state_t) (calls : List (Int × Int × Int × Int)) (i j : Int)
    (v : ren_pixel_t) : ren_pixel_t :=
  calls.foldl (fun v c => if rect_covers st c i j ∧ st.in_clip i j
    then st.blend v st.color else v) v

/-! ## Auxiliary lemmas -/

theorem blend_at_ok (blend : ren_pixel_t → ren_pixel_t → ren_pixel_t)
    (d : List ren_pixel_t) (i : Int) (src : ren_pixel_t)
    (h0 : 0 ≤ i) (h1 : i < d.length) :
    ∃ d1, blend_at blend d i src = .ok d1 ∧ d1.length = d.length ∧
      ∀ k : Nat, d1[k]? = if (k : Int) = i then (d[k]?).map (fun v => blend v src) else d[k]? := by
  have hlt : i.toNat < d.length := by omega
  refine ⟨d.set i.toNat (blend d[i.toNat] src), ?_, by simp, ?_⟩
  · simp [blend_at, load, store, h0, h1, List.getElem?_eq_getElem hlt]
  · intro k
    by_cases hk : (k : Int) = i
    · have hk2 : i.toNat = k := by omega
      subst hk2
      rw [if_pos hk, List.getElem?_set_self hlt, List.getElem?_eq_getElem hlt]
      rfl
    · have hk2 : i.toNat ≠ k := by omega
      simp [hk, List.getElem?_set_ne hk2]

theorem idx_bounds (W H i j : Int) (hi0 : 0 ≤ i) (hi : i < W) (hj0 : 0 ≤ j) (hj : j < H) :
    0 ≤ i + j * W ∧ i + j * W < W * H := by
  constructor
  · have := Int.mul_nonneg hj0 (by omega : 0 ≤ W)
    omega
  · nlinarith

theorem ren_rect_row_ok (st : ren_state_t) (n : Nat) :
    ∀ (p : Int) (d : List ren_pixel_t), 0 ≤ p → p + n ≤ d.length →
    ∃ d1, ren_rect_row st n p d = .ok d1 ∧ d1.length = d.length ∧
      ∀ k : Nat, d1[k]? = if p ≤ k ∧ (k : Int) < p + n
        then (d[k]?).map (fun v => st.blend v st.color) else d[k]? := by
  induction n with
  | zero =>
    intro p d _ _
    refine ⟨d, rfl, rfl, ?_⟩
    intro k
    have : ¬ (p ≤ k ∧ (k : Int) < p + (0 : Nat)) := by omega
    rw [if_neg this]
  | succ n ih =>
    intro p d h0 h1
    obtain ⟨d1, hd1, hl1, hp1⟩ := blend_at_ok st.blend d p st.color h0 (by omega)
    obtain ⟨d2, hd2, hl2, hp2⟩ := ih (p + 1) d1 (by omega) (by rw [hl1]; push_cast at h1 ⊢; omega)
    refine ⟨d2, ?_, by rw [hl2, hl1], ?_⟩
    · simp only [ren_rect_row, hd1]
      exact hd2
    · intro k
      rw [hp2, hp1]
      by_cases hk : (k : Int) = p
      · have h3 : ¬ (p + 1 ≤ k ∧ (k : Int) < p + 1 + n) := by omega
        have h4 : (p ≤ k ∧ (k : Int) < p + (n + 1 : Nat)) := by push_cast; omega
        rw [if_neg h3, if_pos hk, if_pos h4]
      · rw [if_neg hk]
        have h5 : (p + 1 ≤ k ∧ (k : Int) < p + 1 + n) ↔ (p ≤ k ∧ (k : Int) < p + (n + 1 : Nat)) := by
          push_cast; omega
        simp only [h5]

theorem row_iff (W x x1 y i j : Int) (hi0 : 0 ≤ i) (hi : i < W) (hx : 0 ≤ x) (hx1 : x1 ≤ W) :
    (x + y * W ≤ i + j * W ∧ i + j * W < x1 + y * W) ↔ (j = y ∧ x ≤ i ∧ i < x1) := by
  constructor
  · rintro ⟨h1, h2⟩
    have hj : j = y := by
      rcases lt_trichotomy j y with h | h | h
      · exfalso
        have : (j + 1) * W ≤ y * W := Int.mul_le_mul_of_nonneg_right (by omega) (by omega)
        have e : (j + 1) * W = j * W + W := by ring
        omega
      · exact h
      · exfalso
        have : (y + 1) * W ≤ j * W := Int.mul_le_mul_of_nonneg_right (by omega) (by omega)
        have e : (y + 1) * W = y * W + W := by ring
        omega
    subst hj
    omega
  · rintro ⟨rfl, h1, h2⟩
    omega

theorem ren_rect_rows_ok (st : ren_state_t) (x x1 : Int) (H : Int)
    (hx : 0 ≤ x) (hx1 : x1 ≤ st.target.width) (n : Nat) :
    ∀ (y : Int) (d : List ren_pixel_t), 0 ≤ y → y + n ≤ H →
    (d.length : Int) = st.target.width * H →
    ∃ d1, ren_rect_rows st x x1 n y d = .ok d1 ∧ d1.length = d.length ∧
      ∀ i j : Int, 0 ≤ i → i < st.target.width → 0 ≤ j → j < H →
        d1[(i + j * st.target.width).toNat]? =
          if y ≤ j ∧ j < y + n ∧ x ≤ i ∧ i < x1
          then (d[(i + j * st.target.width).toNat]?).map (fun v => st.blend v st.color)
          else d[(i + j * st.target.width).toNat]? := by
  induction n with
  | zero =>
    intro y d _ _ _
    refine ⟨d, rfl, rfl, ?_⟩
    intro i j _ _ _ _
    have : ¬ (y ≤ j ∧ j < y + (0 : Nat) ∧ x ≤ i ∧ i < x1) := by omega
    rw [if_neg this]
  | succ n ih =>
    intro y d hy hyn hlen
    have hrow : ∃ d1, ren_rect_row st
        ((x1 + y * st.target.width) - (x + y * st.target.width)).toNat
        (x + y * st.target.width) d = .ok d1 ∧ d1.length = d.length ∧
        ∀ k : Nat, d1[k]? = if x + y * st.target.width ≤ k ∧ (k : Int) < x1 + y * st.target.width
          then (d[k]?).map (fun v => st.blend v st.color) else d[k]? := by
      by_cases hxx : x < x1
      · have hW : 0 ≤ st.target.width := by omega
        have hb := idx_bounds st.target.width H x y hx (by omega) hy (by omega)
        have hb2 : (y + 1) * st.target.width ≤ H * st.target.width :=
          Int.mul_le_mul_of_nonneg_right (by omega) hW
        have e1 : (y + 1) * st.target.width = y * st.target.width + st.target.width := by ring
        have e2 : H * st.target.width = st.target.width * H := by ring
        obtain ⟨d1, hd1, hl1, hp1⟩ := ren_rect_row_ok st
          ((x1 + y * st.target.width) - (x + y * st.target.width)).toNat
          (x + y * st.target.width) d hb.1 (by omega)
        refine ⟨d1, hd1, hl1, ?_⟩
        intro k
        rw [hp1]
        have : (x + y * st.target.width +
          ((x1 + y * st.target.width - (x + y * st.target.width)).toNat : Int))
            = x1 + y * st.target.width := by omega
        rw [this]
      · have : ((x1 + y * st.target.width) - (x + y * st.target.width)).toNat = 0 := by omega
        rw [this]
        refine ⟨d, rfl, rfl, ?_⟩
        intro k
        have : ¬ (x + y * st.target.width ≤ k ∧ (k : Int) < x1 + y * st.target.width) := by omega
        rw [if_neg this]
    obtain ⟨d1, hd1, hl1, hp1⟩ := hrow
    obtain ⟨d2, hd2, hl2, hp2⟩ := ih (y + 1) d1 (by omega) (by push_cast at hyn; omega)
      (by rw [hl1]; exact hlen)
    refine ⟨d2, ?_, by rw [hl2, hl1], ?_⟩
    · simp only [ren_rect_rows, hd1]
      exact hd2
    · intro i j hi0 hi hj0 hj
      have hb := idx_bounds st.target.width H i j hi0 hi hj0 hj
      rw [hp2 i j hi0 hi hj0 hj, hp1]
      rw [Int.toNat_of_nonneg hb.1]
      have hr := row_iff st.target.width x x1 y i j hi0 hi hx hx1
      by_cases hjy : j = y
      · have h3 : ¬ (y + 1 ≤ j ∧ j < y + 1 + n ∧ x ≤ i ∧ i < x1) := by omega
        rw [if_neg h3]
        by_cases hin : x ≤ i ∧ i < x1
        · rw [if_pos (hr.2 ⟨hjy, hin⟩), if_pos (by push_cast; omega)]
        · rw [if_neg (fun h => hin (hr.1 h).2), if_neg (by push_cast; omega)]
      · rw [if_neg (fun h => hjy (hr.1 h).1)]
        have h5 : (y + 1 ≤ j ∧ j < y + 1 + n ∧ x ≤ i ∧ i < x1) ↔
            (y ≤ j ∧ j < y + (n + 1 : Nat) ∧ x ≤ i ∧ i < x1) := by
          push_cast; omega
        simp only [h5]

theorem with_data_clip_in_target (st : ren_state_t) (d : List ren_pixel_t)
    (hc : st.clip_in_target) (hl : d.length = st.target.data.length) :
    (st.with_data d).clip_in_target := by
  obtain ⟨hW, hH, hlen, hx, hy, hxw, hyh⟩ := hc
  refine ⟨hW, hH, ?_, hx, hy, hxw, hyh⟩
  show ((d.length : Int) = st.target.width * st.target.height)
  rw [hl]; exact hlen

theorem float_to_int_intCast (z : Int) : float_to_int (z : ℚ) = z := by
  unfold float_to_int
  split_ifs <;> simp

theorem load_ok (d : List ren_pixel_t) (i : Int) (h0 : 0 ≤ i) (h1 : i < d.length) :
    load d i = .ok (d.getD i.toNat ⟨0, 0, 0, 0⟩) := by
  have hlt : i.toNat < d.length := by omega
  simp [load, h0, h1, List.getElem?_eq_getElem hlt, List.getD_eq_getElem?_getD]

theorem ren_buffer_row_ident (st : ren_state_t) (buf : ren_buffer_t) (rect : ren_rect_t)
    (px ty R : Int)
    (hrx : rect.x = 0) (hry : rect.y = 0) (hrw : rect.w = buf.width) (hrh : rect.h = buf.height)
    (hbl : (buf.data.length : Int) = buf.width * buf.height)
    (hty0 : 0 ≤ ty) (hty : ty < buf.height)
    (hpx : 0 ≤ px) (hpw : px + buf.width ≤ st.target.width)
    (hR0 : 0 ≤ R) (n : Nat) :
    ∀ (tx : Int) (d : List ren_pixel_t), 0 ≤ tx → tx + n ≤ buf.width →
      ((R + 1) * st.target.width ≤ d.length) →
    ∃ d1, ren_buffer_row st buf rect REN_NULL_TRANSFORM 0 1 px ty (R * st.target.width) n tx d
        = .ok d1 ∧ d1.length = d.length ∧
      ∀ k : Nat, d1[k]? =
        if tx + px + R * st.target.width ≤ k ∧ (k : Int) < tx + n + px + R * st.target.width
        then (d[k]?).map (fun v => st.blend v
          (buf.pixel ((k : Int) - px - R * st.target.width) ty))
        else d[k]? := by
  induction n with
  | zero =>
    intro tx d _ _ _
    refine ⟨d, rfl, rfl, ?_⟩
    intro k
    have : ¬ (tx + px + R * st.target.width ≤ k
        ∧ (k : Int) < tx + (0 : Nat) + px + R * st.target.width) := by omega
    rw [if_neg this]
  | succ n ih =>
    intro tx d htx0 htx hlen
    have hW : 0 ≤ st.target.width := by omega
    have hRW : 0 ≤ R * st.target.width := Int.mul_nonneg hR0 hW
    have e1 : (R + 1) * st.target.width = R * st.target.width + st.target.width := by ring
    have hb := idx_bounds buf.width buf.height tx ty htx0 (by omega) hty0 hty
    obtain ⟨d1, hd1, hl1, hp1⟩ := blend_at_ok st.blend d (tx + px + R * st.target.width)
      (buf.pixel tx ty) (by omega) (by omega)
    obtain ⟨d2, hd2, hl2, hp2⟩ := ih (tx + 1) d1 (by omega) (by push_cast at htx; omega)
      (by rw [hl1]; exact hlen)
    refine ⟨d2, ?_, by rw [hl2, hl1], ?_⟩
    · rw [ren_buffer_row]
      have hcond : (((tx : ℚ) * 1 - (ty : ℚ) * 0) / REN_NULL_TRANSFORM.sx
            + REN_NULL_TRANSFORM.ox ≥ 0
          ∧ ((tx : ℚ) * 0 + (ty : ℚ) * 1) / REN_NULL_TRANSFORM.sy
            + REN_NULL_TRANSFORM.oy ≥ 0
          ∧ ((tx : ℚ) * 1 - (ty : ℚ) * 0) / REN_NULL_TRANSFORM.sx
            + REN_NULL_TRANSFORM.ox < (rect.w : ℚ)
          ∧ ((tx : ℚ) * 0 + (ty : ℚ) * 1) / REN_NULL_TRANSFORM.sy
            + REN_NULL_TRANSFORM.oy < (rect.h : ℚ)) := by
        simp only [REN_NULL_TRANSFORM, hrw, hrh]
        norm_num
        refine ⟨htx0, hty0, ?_, hty⟩
        push_cast at htx; omega
      have hdrx : ((tx : ℚ) * 1 - (ty : ℚ) * 0) / REN_NULL_TRANSFORM.sx
            + REN_NULL_TRANSFORM.ox = (tx : ℚ) := by
        simp [REN_NULL_TRANSFORM]
      have hdry : ((tx : ℚ) * 0 + (ty : ℚ) * 1) / REN_NULL_TRANSFORM.sy
            + REN_NULL_TRANSFORM.oy = (ty : ℚ) := by
        simp [REN_NULL_TRANSFORM]
      rw [if_pos hcond, hdrx, hdry, float_to_int_intCast, float_to_int_intCast, hrx, hry]
      have hload : load buf.data (tx + 0 + (ty + 0) * buf.width) = .ok (buf.pixel tx ty) := by
        have e0 : tx + 0 + (ty + 0) * buf.width = tx + ty * buf.width := by ring
        rw [e0, load_ok _ _ hb.1 (by rw [hbl]; exact hb.2)]
        rfl
      rw [hload]
      simp only [hd1]
      exact hd2
    · intro k
      rw [hp2, hp1]
      by_cases hk : (k : Int) = tx + px + R * st.target.width
      · have h3 : ¬ (tx + 1 + px + R * st.target.width ≤ k
            ∧ (k : Int) < tx + 1 + n + px + R * st.target.width) := by omega
        have h4 : (tx + px + R * st.target.width ≤ k
            ∧ (k : Int) < tx + (n + 1 : Nat) + px + R * st.target.width) := by
          push_cast; omega
        have h5 : (k : Int) - px - R * st.target.width = tx := by omega
        rw [if_neg h3, if_pos hk, if_pos h4, h5]
      · rw [if_neg hk]
        have h5 : (tx + 1 + px + R * st.target.width ≤ k
            ∧ (k : Int) < tx + 1 + n + px + R * st.target.width) ↔
            (tx + px + R * st.target.width ≤ k
            ∧ (k : Int) < tx + (n + 1 : Nat) + px + R * st.target.width) := by
          push_cast; omega
        simp only [h5]

theorem ren_buffer_rows_ident (st : ren_state_t) (buf : ren_buffer_t) (rect : ren_rect_t)
    (px py : Int)
    (hrx : rect.x = 0) (hry : rect.y = 0) (hrw : rect.w = buf.width) (hrh : rect.h = buf.height)
    (hbw : 0 ≤ buf.width)
    (hbl : (buf.data.length : Int) = buf.width * buf.height)
    (hpx : 0 ≤ px) (hpw : px + buf.width ≤ st.target.width)
    (hpy : 0 ≤ py) (hph : py + buf.height ≤ st.target.height) (n : Nat) :
    ∀ (ty : Int) (d : List ren_pixel_t), 0 ≤ ty → ty + n ≤ buf.height →
      (d.length : Int) = st.target.width * st.target.height →
    ∃ d1, ren_buffer_rows st buf rect REN_NULL_TRANSFORM 0 1 px py 0 buf.width n ty d
        = .ok d1 ∧ d1.length = d.length ∧
      ∀ i j : Int, 0 ≤ i → i < st.target.width → 0 ≤ j → j < st.target.height →
        d1[(i + j * st.target.width).toNat]? =
          if ty + py ≤ j ∧ j < ty + n + py ∧ px ≤ i ∧ i < px + buf.width
          then (d[(i + j * st.target.width).toNat]?).map
            (fun v => st.blend v (buf.pixel (i - px) (j - py)))
          else d[(i + j * st.target.width).toNat]? := by
  induction n with
  | zero =>
    intro ty d _ _ _
    refine ⟨d, rfl, rfl, ?_⟩
    intro i j _ _ _ _
    have : ¬ (ty + py ≤ j ∧ j < ty + (0 : Nat) + py ∧ px ≤ i ∧ i < px + buf.width) := by omega
    rw [if_neg this]
  | succ n ih =>
    intro ty d hty0 hty hlen
    have hW : 0 ≤ st.target.width := by omega
    have hb2 : (ty + py + 1) * st.target.width ≤ st.target.height * st.target.width :=
      Int.mul_le_mul_of_nonneg_right (by omega) hW
    have e2 : st.target.height * st.target.width = st.target.width * st.target.height := by ring
    obtain ⟨d1, hd1, hl1, hp1⟩ := ren_buffer_row_ident st buf rect px ty (ty + py)
      hrx hry hrw hrh hbl hty0 (by omega) hpx hpw (by omega) (buf.width - 0).toNat 0 d
      (le_refl 0) (by omega) (by omega)
    obtain ⟨d2, hd2, hl2, hp2⟩ := ih (ty + 1) d1 (by omega) (by push_cast at hty; omega)
      (by rw [hl1]; exact hlen)
    refine ⟨d2, ?_, by rw [hl2, hl1], ?_⟩
    · rw [ren_buffer_rows]
      simp only [hd1]
      exact hd2
    · intro i j hi0 hi hj0 hj
      have hb := idx_bounds st.target.width st.target.height i j hi0 hi hj0 hj
      rw [hp2 i j hi0 hi hj0 hj, hp1]
      rw [Int.toNat_of_nonneg hb.1]
      have hr := row_iff st.target.width px (px + buf.width) (ty + py) i j hi0 hi hpx hpw
      have hcast : (((buf.width - 0).toNat : Nat) : Int) = buf.width := by omega
      rw [hcast]
      by_cases hjy : j = ty + py
      · have h3 : ¬ (ty + 1 + py ≤ j ∧ j < ty + 1 + n + py ∧ px ≤ i ∧ i < px + buf.width) := by
          omega
        rw [if_neg h3]
        by_cases hin : px ≤ i ∧ i < px + buf.width
        · have h4 : (0 + px + (ty + py) * st.target.width ≤ i + j * st.target.width ∧
              i + j * st.target.width < 0 + buf.width + px + (ty + py) * st.target.width) := by
            have := hr.2 ⟨hjy, hin⟩
            omega
          have h5 : i + j * st.target.width - px - (ty + py) * st.target.width = i - px := by
            rw [hjy]; ring
          have h6 : ty = j - py := by omega
          rw [if_pos h4, if_pos (by push_cast; omega), h5, ← h6]
        · have h4 : ¬ (0 + px + (ty + py) * st.target.width ≤ i + j * st.target.width ∧
              i + j * st.target.width < 0 + buf.width + px + (ty + py) * st.target.width) := by
            intro h
            apply hin
            have := hr.1 (by omega)
            exact this.2
          rw [if_neg h4, if_neg (by push_cast; omega)]
      · have h4 : ¬ (0 + px + (ty + py) * st.target.width ≤ i + j * st.target.width ∧
              i + j * st.target.width < 0 + buf.width + px + (ty + py) * st.target.width) := by
          intro h
          apply hjy
          have := hr.1 (by omega)
          exact this.1
        rw [if_neg h4]
        have h5 : (ty + 1 + py ≤ j ∧ j < ty + 1 + n + py ∧ px ≤ i ∧ i < px + buf.width) ↔
            (ty + py ≤ j ∧ j < ty + (n + 1 : Nat) + py ∧ px ≤ i ∧ i < px + buf.width) := by
          push_cast; omega
        simp only [h5]

theorem blit_identity_pointwise (REN_WIDTH REN_HEIGHT : Int) (fastsin fastcos : ℚ → ℚ)
    (hsin : fastsin 0 = 0) (hcos : fastcos 0 = 1)
    (st : ren_state_t) (buf : ren_buffer_t) (px py : Int)
    (hbw : 0 ≤ buf.width) (hbh : 0 ≤ buf.height)
    (hbl : (buf.data.length : Int) = buf.width * buf.height)
    (hlen : (st.target.data.length : Int) = st.target.width * st.target.height)
    (hpx : 0 ≤ px + st.translate.x) (hpy : 0 ≤ py + st.translate.y)
    (hpw : px + st.translate.x + buf.width ≤ st.target.width)
    (hph : py + st.translate.y + buf.height ≤ st.target.height)
    (hsw : px + st.translate.x + buf.width < REN_WIDTH)
    (hsh : py + st.translate.y + buf.height < REN_HEIGHT) :
    ∃ d1, ren_buffer REN_WIDTH REN_HEIGHT fastsin fastcos st buf px py
        ⟨0, 0, buf.width, buf.height⟩ REN_NULL_TRANSFORM = .ok d1 ∧
      d1.length = st.target.data.length ∧
      ∀ i j : Int, 0 ≤ i → i < st.target.width → 0 ≤ j → j < st.target.height →
        d1[(i + j * st.target.width).toNat]? =
          if py + st.translate.y ≤ j ∧ j < py + st.translate.y + buf.height
              ∧ px + st.translate.x ≤ i ∧ i < px + st.translate.x + buf.width
          then (st.target.data[(i + j * st.target.width).toNat]?).map
            (fun v => st.blend v
              (buf.pixel (i - (px + st.translate.x)) (j - (py + st.translate.y))))
          else st.target.data[(i + j * st.target.width).toNat]? := by
  have hq : (0 : ℚ) ≤ (buf.width : ℚ) := by exact_mod_cast hbw
  have hq2 : (0 : ℚ) ≤ (buf.height : ℚ) := by exact_mod_cast hbh
  have hbx : Tetrix.max (-(px + st.translate.x)) 0 = 0 := by
    unfold Tetrix.max; split_ifs <;> omega
  have hby : Tetrix.max (-(py + st.translate.y)) 0 = 0 := by
    unfold Tetrix.max; split_ifs <;> omega
  have hex : Tetrix.min buf.width (REN_WIDTH - 1 - (px + st.translate.x)) = buf.width := by
    unfold Tetrix.min; split_ifs <;> omega
  have hey : Tetrix.min buf.height (REN_HEIGHT - 1 - (py + st.translate.y)) = buf.height := by
    unfold Tetrix.min; split_ifs <;> omega
  have hf0 : float_to_int 0 = 0 := by simpa using float_to_int_intCast 0
  obtain ⟨d1, hd1, hl1, hp1⟩ := ren_buffer_rows_ident st buf ⟨0, 0, buf.width, buf.height⟩
    (px + st.translate.x) (py + st.translate.y) rfl rfl rfl rfl hbw hbl hpx hpw hpy hph
    (buf.height - 0).toNat 0 st.target.data (le_refl 0) (by omega) hlen
  refine ⟨d1, ?_, hl1, ?_⟩
  · rw [← hd1]
    unfold ren_buffer
    simp only [REN_NULL_TRANSFORM, hsin, hcos, neg_zero, mul_one, zero_mul, mul_zero, add_zero,
      sub_zero, zero_add, one_mul, min_eq_left hq, max_eq_right hq, min_eq_left hq2,
      max_eq_right hq2, min_eq_right hq, min_eq_right hq2, max_eq_left hq, max_eq_left hq2,
      min_self, max_self, min_eq_left (le_refl (0 : ℚ)), float_to_int_intCast,
      hf0, hbx, hby, hex, hey]
  · intro i j hi0 hi hj0 hj
    rw [hp1 i j hi0 hi hj0 hj]
    have hiff : (0 + (py + st.translate.y) ≤ j
        ∧ j < 0 + (((buf.height - 0).toNat : Nat) : Int) + (py + st.translate.y)
        ∧ px + st.translate.x ≤ i ∧ i < px + st.translate.x + buf.width) ↔
        (py + st.translate.y ≤ j ∧ j < py + st.translate.y + buf.height
              ∧ px + st.translate.x ≤ i ∧ i < px + st.translate.x + buf.width) := by
      omega
    simp only [hiff]

theorem color_mul_eq (a b : Nat) (ha : a < 256) (hb : b < 256) :
    color_mul a b = (a * b) >>> 8 := by
  unfold color_mul
  apply Nat.mod_eq_of_lt
  rw [Nat.shiftRight_eq_div_pow]
  have : a * b < 256 * 256 := Nat.mul_lt_mul'' ha hb
  omega

theorem color_add_eq (a b : Nat) : color_add a b = saturating_add a b := by
  unfold color_add saturating_add Tetrix.min to_u8
  split_ifs <;> omega

theorem to_u8_complement (a : Nat) (h : a < 256) : to_u8 (0xFF - (a : Int)) = 255 - a := by
  unfold to_u8
  omega

/-! ## The claims -/

set_option maxRecDepth 20000 in
/-- Claim C1, evaluated where it fails: on a 4 x 4 all-zero target with clip
rectangle (1, 1, 2, 2), `ren_fill` returns and has written the colour to the
storage offsets 1 .. 12, a run that starts at offset `clip.y` and ignores
`clip.x` and the row stride.  The pixels (1, 0) and (0, 1) lie outside the clip
rectangle, were all-zero before the call and hold the fill colour after it. -/
theorem ren_fill_writes_outside_clip :
    ren_fill 7 (state4 ⟨1, 1, 2, 2⟩) white
        = .ok ([⟨0, 0, 0, 0⟩] ++ List.replicate 12 white ++ List.replicate 3 ⟨0, 0, 0, 0⟩) ∧
      (state4 ⟨1, 1, 2, 2⟩).clip_in_target ∧
      ¬ (state4 ⟨1, 1, 2, 2⟩).in_clip 1 0 ∧
      ¬ (state4 ⟨1, 1, 2, 2⟩).in_clip 0 1 ∧
      (state4 ⟨1, 1, 2, 2⟩).target.data[1 + 0 * 4]? = some ⟨0, 0, 0, 0⟩ ∧
      (state4 ⟨1, 1, 2, 2⟩).target.data[0 + 1 * 4]? = some ⟨0, 0, 0, 0⟩ := by
  decide

/-- Claim C2: when the clip rectangle lies inside the target, `ren_plot` at a
point whose translation lies outside the clip rectangle returns the storage
unchanged; otherwise it returns a storage of the same length in which the pixel
at offset `x' + y' * width` is the blend of the old pixel with the current
colour and every other pixel is as before. -/
theorem ren_plot_spec (st : ren_state_t) (x y : Int) (hc : st.clip_in_target) :
    (¬ st.in_clip (x + st.translate.x) (y + st.translate.y) →
      ren_plot st x y = .ok st.target.data) ∧
    (st.in_clip (x + st.translate.x) (y + st.translate.y) →
      0 ≤ (x + st.translate.x) + (y + st.translate.y) * st.target.width ∧
      ∃ old d1,
        st.target.data[((x + st.translate.x) + (y + st.translate.y) * st.target.width).toNat]?
          = some old ∧
        ren_plot st x y = .ok d1 ∧
        d1.length = st.target.data.length ∧
        d1[((x + st.translate.x) + (y + st.translate.y) * st.target.width).toNat]?
          = some (st.blend old st.color) ∧
        ∀ k : Nat, k ≠ ((x + st.translate.x) + (y + st.translate.y) * st.target.width).toNat →
          d1[k]? = st.target.data[k]?) := by
  obtain ⟨hW, hH, hlen, hx, hy, hxw, hyh⟩ := hc
  constructor
  · intro h
    unfold ren_plot
    simp only [ren_state_t.in_clip] at h
    simp only [ge_iff_le]
    rw [if_neg h]
  · intro h
    obtain ⟨h1, h2, h3, h4⟩ := h
    have hb := idx_bounds st.target.width st.target.height (x + st.translate.x)
      (y + st.translate.y) (by omega) (by omega) (by omega) (by omega)
    obtain ⟨d1, hd1, hl1, hp1⟩ := blend_at_ok st.blend st.target.data
      ((x + st.translate.x) + (y + st.translate.y) * st.target.width) st.color hb.1
      (by rw [hlen]; exact hb.2)
    have hlt : ((x + st.translate.x) + (y + st.translate.y) * st.target.width).toNat
        < st.target.data.length := by omega
    refine ⟨hb.1,
      st.target.data[((x + st.translate.x) + (y + st.translate.y) * st.target.width).toNat],
      d1, List.getElem?_eq_getElem hlt, ?_, hl1, ?_, ?_⟩
    · unfold ren_plot
      simp only [ge_iff_le]
      rw [if_pos ⟨h1, h2, h3, h4⟩]
      exact hd1
    · rw [hp1]
      simp [Int.toNat_of_nonneg hb.1, List.getElem?_eq_getElem hlt]
    · intro k hk
      rw [hp1]
      have : (k : Int) ≠ (x + st.translate.x) + (y + st.translate.y) * st.target.width := by
        omega
      simp [this]

/-- Witness for `ren_plot_spec`: the state with clip (1, 1, 2, 2) on the 4 x 4
target, plotting (1, 1) inside the clip. -/
theorem ren_plot_spec_witness :
    (state4 ⟨1, 1, 2, 2⟩).clip_in_target ∧
    (state4 ⟨1, 1, 2, 2⟩).in_clip 1 1 ∧
    ∃ old d1, (state4 ⟨1, 1, 2, 2⟩).target.data[((1 : Int) + 0 + (1 + 0) * 4).toNat]? = some old ∧
      ren_plot (state4 ⟨1, 1, 2, 2⟩) 1 1 = .ok d1 ∧
      d1[((1 : Int) + 0 + (1 + 0) * 4).toNat]? = some (ren_blend_replace old white) :=
  ⟨by decide, by decide,
    (((ren_plot_spec (state4 ⟨1, 1, 2, 2⟩) 1 1 (by decide)).2 (by decide)).2).imp
      fun _ h => h.imp fun _ h2 => ⟨h2.1, h2.2.1, h2.2.2.2.1⟩⟩
/-- Claim C6, evaluated where it fails: with clip rectangle (0, 0, 1, 1) on the
4 x 4 target, blitting a 2 x 2 white source with the identity transform to
(1, 1) changes the target pixel (1, 1), which lies outside the clip rectangle,
from all-zero to (254, 254, 254, 255): `ren_buffer` never reads the clip. -/
theorem ren_buffer_ignores_clip :
    ∃ d1, ren_buffer 4 4 sin_at_zero cos_at_zero (state4 ⟨0, 0, 1, 1⟩) (white_buffer 2 2) 1 1
        ⟨0, 0, 2, 2⟩ REN_NULL_TRANSFORM = .ok d1 ∧
      (state4 ⟨0, 0, 1, 1⟩).clip_in_target ∧
      ¬ (state4 ⟨0, 0, 1, 1⟩).in_clip 1 1 ∧
      (state4 ⟨0, 0, 1, 1⟩).target.data[1 + 1 * 4]? = some ⟨0, 0, 0, 0⟩ ∧
      d1[1 + 1 * 4]? = some ⟨254, 254, 254, 255⟩ := by
  obtain ⟨d1, hd1, _, hp1⟩ := blit_identity_pointwise 4 4 sin_at_zero cos_at_zero rfl rfl
    (state4 ⟨0, 0, 1, 1⟩) (white_buffer 2 2) 1 1 (by decide) (by decide) (by decide)
    (by decide) (by decide) (by decide) (by decide) (by decide) (by decide) (by decide)
  refine ⟨d1, hd1, by decide, by decide, by decide, ?_⟩
  have h := hp1 1 1 (by decide) (by decide) (by decide) (by decide)
  rw [if_pos (by decide)] at h
  exact h

/-- Claim C7: for 8-bit pixels, `replace` yields `dst.a = src.a` and, for each
of r, g, b, the truncating product `(src.ch * src.a) >> 8`; the result does not
depend on the previous value of `dst`. -/
theorem ren_blend_replace_spec (dst src : ren_pixel_t) (hs : src.valid) :
    (ren_blend_replace dst src).a = src.a ∧
    (ren_blend_replace dst src).r = (src.r * src.a) >>> 8 ∧
    (ren_blend_replace dst src).g = (src.g * src.a) >>> 8 ∧
    (ren_blend_replace dst src).b = (src.b * src.a) >>> 8 ∧
    ∀ dst2 : ren_pixel_t, ren_blend_replace dst2 src = ren_blend_replace dst src := by
  obtain ⟨h1, h2, h3, h4⟩ := hs
  refine ⟨rfl, color_mul_eq _ _ h1 h4, color_mul_eq _ _ h2 h4, color_mul_eq _ _ h3 h4, ?_⟩
  intro dst2
  rfl

/-- Witness for `ren_blend_replace_spec`. -/
theorem ren_blend_replace_spec_witness :
    (⟨200, 100, 255, 128⟩ : ren_pixel_t).valid ∧
    (ren_blend_replace ⟨1, 2, 3, 4⟩ ⟨200, 100, 255, 128⟩).a = 128 ∧
    (ren_blend_replace ⟨1, 2, 3, 4⟩ ⟨200, 100, 255, 128⟩).r = (200 * 128) >>> 8 :=
  ⟨by decide, (ren_blend_replace_spec ⟨1, 2, 3, 4⟩ ⟨200, 100, 255, 128⟩ (by decide)).1,
    (ren_blend_replace_spec ⟨1, 2, 3, 4⟩ ⟨200, 100, 255, 128⟩ (by decide)).2.1⟩

/-- Claim C8: for 8-bit pixels, `multiply` sets each of the four channels to the
truncating product `(src.ch * dst.ch) >> 8`; for `src.ch = dst.ch = 200` that
is 156. -/
theorem ren_blend_multiply_spec (dst src : ren_pixel_t) (hd : dst.valid) (hs : src.valid) :
    (ren_blend_multiply dst src).r = (src.r * dst.r) >>> 8 ∧
    (ren_blend_multiply dst src).g = (src.g * dst.g) >>> 8 ∧
    (ren_blend_multiply dst src).b = (src.b * dst.b) >>> 8 ∧
    (ren_blend_multiply dst src).a = (src.a * dst.a) >>> 8 ∧
    ren_blend_multiply ⟨200, 200, 200, 200⟩ ⟨200, 200, 200, 200⟩ = ⟨156, 156, 156, 156⟩ := by
  obtain ⟨h1, h2, h3, h4⟩ := hs
  obtain ⟨g1, g2, g3, g4⟩ := hd
  exact ⟨color_mul_eq _ _ h1 g1, color_mul_eq _ _ h2 g2, color_mul_eq _ _ h3 g3,
    color_mul_eq _ _ h4 g4, by decide⟩

/-- Witness for `ren_blend_multiply_spec`. -/
theorem ren_blend_multiply_spec_witness :
    (⟨10, 20, 30, 40⟩ : ren_pixel_t).valid ∧ (⟨255, 128, 64, 32⟩ : ren_pixel_t).valid ∧
    (ren_blend_multiply ⟨10, 20, 30, 40⟩ ⟨255, 128, 64, 32⟩).r = (255 * 10) >>> 8 :=
  ⟨by decide, by decide,
    (ren_blend_multiply_spec ⟨10, 20, 30, 40⟩ ⟨255, 128, 64, 32⟩ (by decide) (by decide)).1⟩

/-- Claim C9: `add` and `subtract` each leave the alpha channel of `dst` as it
was, and for a source of full alpha whose addition does not saturate in r, g
and b, `add` followed by `subtract` with the same source returns `dst` to its
original value in all four channels (the proof does not need the alpha to be
full). -/
theorem ren_blend_add_subtract_roundtrip (dst src : ren_pixel_t)
    (_ha : src.a = 255)
    (hr : dst.r + ((src.r * src.a) >>> 8) ≤ 255)
    (hg : dst.g + ((src.g * src.a) >>> 8) ≤ 255)
    (hb : dst.b + ((src.b * src.a) >>> 8) ≤ 255) :
    (ren_blend_add dst src).a = dst.a ∧
    (ren_blend_subtract dst src).a = dst.a ∧
    ren_blend_subtract (ren_blend_add dst src) src = dst := by
  refine ⟨by simp only [ren_blend_add], by simp only [ren_blend_subtract], ?_⟩
  have key : ∀ d s : Nat, d + ((s * src.a) >>> 8) ≤ 255 →
      color_sub (color_add d (color_mul s src.a)) (color_mul s src.a) = d := by
    intro d s h
    unfold color_sub color_add color_mul Tetrix.min Tetrix.max to_u8
    generalize (s * src.a) >>> 8 = m at h ⊢
    have hm : m % 256 = m := Nat.mod_eq_of_lt (by omega)
    rw [hm]
    split_ifs <;> omega
  cases dst with
  | mk r g b a =>
    simp only [ren_blend_subtract, ren_blend_add]
    rw [key r src.r hr, key g src.g hg, key b src.b hb]

/-- Witness for `ren_blend_add_subtract_roundtrip`. -/
theorem ren_blend_add_subtract_roundtrip_witness :
    ren_blend_subtract (ren_blend_add ⟨100, 50, 0, 7⟩ ⟨100, 200, 255, 255⟩)
      ⟨100, 200, 255, 255⟩ = ⟨100, 50, 0, 7⟩ :=
  (ren_blend_add_subtract_roundtrip ⟨100, 50, 0, 7⟩ ⟨100, 200, 255, 255⟩ rfl
    (by decide) (by decide) (by decide)).2.2

/-- Claim C10, evaluated where it fails: for `dst.a = 0` and `src.a = 128`,
`screen` leaves alpha 128, while the claimed formula
`saturating_add(mul(dst.a, 255 - src.a), mul(src.a, src.a))` gives 64. -/
theorem ren_blend_screen_alpha_counterexample :
    (ren_blend_screen ⟨0, 0, 0, 0⟩ ⟨0, 0, 0, 128⟩).a = 128 ∧
    saturating_add (mul 0 (255 - 128)) (mul 128 128) = 64 ∧
    (ren_blend_screen ⟨0, 0, 0, 0⟩ ⟨0, 0, 0, 128⟩).a
      ≠ saturating_add (mul (0 : Nat) (255 - 128)) (mul 128 128) := by
  decide

/-- Claim C10 as amended: for 8-bit pixels, `screen` sets each of r, g, b to
`saturating_add(mul(dst.ch, 255 - src.ch), mul(src.ch, src.a))` and sets alpha
to `saturating_add(mul(dst.a, 255 - src.a), src.a)`: the source alpha is added
as it is, not multiplied by itself. -/
theorem ren_blend_screen_spec (dst src : ren_pixel_t) (hd : dst.valid) (hs : src.valid) :
    (ren_blend_screen dst src).r
      = saturating_add (mul dst.r (255 - src.r)) (mul src.r src.a) ∧
    (ren_blend_screen dst src).g
      = saturating_add (mul dst.g (255 - src.g)) (mul src.g src.a) ∧
    (ren_blend_screen dst src).b
      = saturating_add (mul dst.b (255 - src.b)) (mul src.b src.a) ∧
    (ren_blend_screen dst src).a = saturating_add (mul dst.a (255 - src.a)) src.a := by
  obtain ⟨h1, h2, h3, h4⟩ := hs
  obtain ⟨g1, g2, g3, g4⟩ := hd
  simp only [ren_blend_screen, color_add_eq, mul, to_u8_complement _ h1, to_u8_complement _ h2,
    to_u8_complement _ h3, to_u8_complement _ h4]
  rw [color_mul_eq _ _ g1 (by omega), color_mul_eq _ _ g2 (by omega),
    color_mul_eq _ _ g3 (by omega), color_mul_eq _ _ g4 (by omega),
    color_mul_eq _ _ h1 h4, color_mul_eq _ _ h2 h4, color_mul_eq _ _ h3 h4]
  exact ⟨rfl, rfl, rfl, rfl⟩

/-- Witness for `ren_blend_screen_spec`. -/
theorem ren_blend_screen_spec_witness :
    (⟨10, 20, 30, 0⟩ : ren_pixel_t).valid ∧ (⟨255, 128, 64, 128⟩ : ren_pixel_t).valid ∧
    (ren_blend_screen ⟨10, 20, 30, 0⟩ ⟨255, 128, 64, 128⟩).a
      = saturating_add (mul 0 (255 - 128)) 128 :=
  ⟨by decide, by decide,
    (ren_blend_screen_spec ⟨10, 20, 30, 0⟩ ⟨255, 128, 64, 128⟩ (by decide) (by decide)).2.2.2⟩

/-! ## Auxiliary lemmas for buffers, outlines, circles and fills -/

theorem ren_rect_pointwise (st : ren_state_t) (x y w h : Int) (hc : st.clip_in_target) :
    ∃ d1, ren_rect st x y w h = .ok d1 ∧ d1.length = st.target.data.length ∧
      (∀ i j : Int, 0 ≤ i → i < st.target.width → 0 ≤ j → j < st.target.height →
        d1[(i + j * st.target.width).toNat]? =
          if rect_covers st (x, y, w, h) i j ∧ st.in_clip i j
          then (st.target.data[(i + j * st.target.width).toNat]?).map
            (fun v => st.blend v st.color)
          else st.target.data[(i + j * st.target.width).toNat]?) := by
  obtain ⟨hW, hH, hlen, hx, hy, hxw, hyh⟩ := hc
  unfold ren_rect
  simp only [rect_covers]
  generalize hX : (if x + st.translate.x < st.clip.x then st.clip.x else x + st.translate.x) = X
  generalize hX1 : (if x + st.translate.x + w > st.clip.x + st.clip.w
    then st.clip.x + st.clip.w else x + st.translate.x + w) = X1
  generalize hY : (if y + st.translate.y < st.clip.y then st.clip.y else y + st.translate.y) = Y
  generalize hY1 : (if y + st.translate.y + h > st.clip.y + st.clip.h
    then st.clip.y + st.clip.h else y + st.translate.y + h) = Y1
  have hXb : 0 ≤ X := by rw [← hX]; split_ifs <;> omega
  have hX1b : X1 ≤ st.target.width := by rw [← hX1]; split_ifs <;> omega
  have hYb : 0 ≤ Y := by rw [← hY]; split_ifs <;> omega
  have hY1b : Y1 ≤ st.target.height := by rw [← hY1]; split_ifs <;> omega
  have hcond : ∀ i j : Int, (Y ≤ j ∧ j < Y1 ∧ X ≤ i ∧ i < X1) ↔
      ((x + st.translate.x ≤ i ∧ i < x + st.translate.x + w
            ∧ y + st.translate.y ≤ j ∧ j < y + st.translate.y + h) ∧ st.in_clip i j) := by
    intro i j
    simp only [ren_state_t.in_clip]
    rw [← hX, ← hX1, ← hY, ← hY1]
    split_ifs <;> omega
  by_cases hyy : Y < Y1
  · obtain ⟨d1, hd1, hl1, hp1⟩ := ren_rect_rows_ok st X X1 st.target.height hXb hX1b
      (Y1 - Y).toNat Y st.target.data hYb (by omega) hlen
    refine ⟨d1, hd1, hl1, ?_⟩
    intro i j hi0 hi hj0 hj
    rw [hp1 i j hi0 hi hj0 hj]
    have e : Y + ((Y1 - Y).toNat : Int) = Y1 := by omega
    rw [e]
    simp only [hcond]
  · have e : (Y1 - Y).toNat = 0 := by omega
    rw [e]
    refine ⟨st.target.data, rfl, rfl, ?_⟩
    intro i j _ _ _ _
    have : ¬ ((x + st.translate.x ≤ i ∧ i < x + st.translate.x + w
            ∧ y + st.translate.y ≤ j ∧ j < y + st.translate.y + h) ∧ st.in_clip i j) := by
      rw [← hcond]; omega
    rw [if_neg this]

theorem ren_rect_seq_ok (st : ren_state_t) (hc : st.clip_in_target)
    (calls : List (Int × Int × Int × Int)) :
    ∀ d : List ren_pixel_t, d.length = st.target.data.length →
    ∃ d1, ren_rect_seq st calls d = .ok d1 ∧ d1.length = d.length ∧
      ∀ i j : Int, 0 ≤ i → i < st.target.width → 0 ≤ j → j < st.target.height →
        d1[(i + j * st.target.width).toNat]? =
          (d[(i + j * st.target.width).toNat]?).map (blend_calls st calls i j) := by
  induction calls with
  | nil =>
    intro d _
    refine ⟨d, rfl, rfl, ?_⟩
    intro i j _ _ _ _
    cases d[(i + j * st.target.width).toNat]? <;> rfl
  | cons c calls ih =>
    intro d hl
    obtain ⟨x, y, w, h⟩ := c
    obtain ⟨d1, hd1, hl1, hp1⟩ := ren_rect_pointwise (st.with_data d) x y w h
      (with_data_clip_in_target st d hc hl)
    have hl1' : d1.length = d.length := hl1
    obtain ⟨d2, hd2, hl2, hp2⟩ := ih d1 (by rw [hl1', hl])
    refine ⟨d2, ?_, by rw [hl2, hl1'], ?_⟩
    · simp only [ren_rect_seq, hd1]
      exact hd2
    · intro i j hi0 hi hj0 hj
      have h1 := hp1 i j hi0 hi hj0 hj
      rw [hp2 i j hi0 hi hj0 hj]
      have h1' : d1[(i + j * st.target.width).toNat]? =
          if rect_covers st (x, y, w, h) i j ∧ st.in_clip i j
          then (d[(i + j * st.target.width).toNat]?).map (fun v => st.blend v st.color)
          else d[(i + j * st.target.width).toNat]? := h1
      rw [h1']
      cases hv : d[(i + j * st.target.width).toNat]? with
      | none => simp
      | some v =>
        by_cases hcov : rect_covers st (x, y, w, h) i j ∧ st.in_clip i j
        · simp [blend_calls, hcov]
        · simp [blend_calls, hcov]

theorem blend_calls_once (st : ren_state_t) (i j : Int)
    (calls : List (Int × Int × Int × Int)) :
    ∀ v : ren_pixel_t,
    calls.Pairwise (fun c c2 => ¬ (rect_covers st c i j ∧ rect_covers st c2 i j)) →
    blend_calls st calls i j v =
      if (∃ c ∈ calls, rect_covers st c i j) ∧ st.in_clip i j
      then st.blend v st.color else v := by
  induction calls with
  | nil => intro v _; simp [blend_calls]
  | cons c calls ih =>
    intro v hp
    rw [List.pairwise_cons] at hp
    have hstep : blend_calls st (c :: calls) i j v = blend_calls st calls i j
        (if rect_covers st c i j ∧ st.in_clip i j then st.blend v st.color else v) := by
      simp [blend_calls]
    rw [hstep]
    by_cases hcl : st.in_clip i j
    · by_cases hcov : rect_covers st c i j
      · have hno : ¬ ∃ c2 ∈ calls, rect_covers st c2 i j := by
          rintro ⟨c2, hc2, hcov2⟩
          exact hp.1 c2 hc2 ⟨hcov, hcov2⟩
        rw [if_pos ⟨hcov, hcl⟩, ih _ hp.2, if_neg (fun h => hno h.1),
          if_pos ⟨⟨c, List.mem_cons_self _ _, hcov⟩, hcl⟩]
      · rw [if_neg (fun h => hcov h.1), ih _ hp.2]
        have hiff : (∃ c2 ∈ c :: calls, rect_covers st c2 i j)
            ↔ (∃ c2 ∈ calls, rect_covers st c2 i j) := by
          constructor
          · rintro ⟨c2, hc2, hcov2⟩
            rcases List.mem_cons.1 hc2 with rfl | hm
            · exact absurd hcov2 hcov
            · exact ⟨c2, hm, hcov2⟩
          · rintro ⟨c2, hc2, hcov2⟩
            exact ⟨c2, List.mem_cons_of_mem _ hc2, hcov2⟩
        simp only [hiff]
    · rw [if_neg (fun h => hcl h.2), ih _ hp.2, if_neg (fun h => hcl h.2),
        if_neg (fun h => hcl h.2)]

theorem option_map_ite (P : Prop) [Decidable P] (f : ren_pixel_t → ren_pixel_t)
    (o : Option ren_pixel_t) :
    o.map (fun v => if P then f v else v) = if P then o.map f else o := by
  by_cases h : P
  · simp [h]
  · simp [h]

theorem ren_rect_seq_once (st : ren_state_t) (hc : st.clip_in_target)
    (calls : List (Int × Int × Int × Int))
    (hdis : ∀ i j : Int,
      calls.Pairwise (fun c c2 => ¬ (rect_covers st c i j ∧ rect_covers st c2 i j))) :
    ∃ d1, ren_rect_seq st calls st.target.data = .ok d1 ∧
      d1.length = st.target.data.length ∧
      ∀ i j : Int, 0 ≤ i → i < st.target.width → 0 ≤ j → j < st.target.height →
        d1[(i + j * st.target.width).toNat]? =
          if (∃ c ∈ calls, rect_covers st c i j) ∧ st.in_clip i j
          then (st.target.data[(i + j * st.target.width).toNat]?).map
            (fun v => st.blend v st.color)
          else st.target.data[(i + j * st.target.width).toNat]? := by
  obtain ⟨d1, hd1, hl1, hp1⟩ := ren_rect_seq_ok st hc calls st.target.data rfl
  refine ⟨d1, hd1, hl1, ?_⟩
  intro i j hi0 hi hj0 hj
  rw [hp1 i j hi0 hi hj0 hj]
  have hfun : blend_calls st calls i j = fun v =>
      if (∃ c ∈ calls, rect_covers st c i j) ∧ st.in_clip i j
      then st.blend v st.color else v := by
    funext v
    exact blend_calls_once st i j calls v (hdis i j)
  rw [hfun, option_map_ite]

theorem row_word_index (y : Int) (h0 : 0 ≤ y) (h1 : y < 16384) :
    (y >>> (5 : Nat)).toNat < 512 ∧ ((y >>> (5 : Nat)).toNat : Int) = y / 32 := by
  rw [Int.shiftRight_eq_div_pow]
  have : ((2 ^ 5 : Nat) : Int) = 32 := by norm_num
  rw [this]
  omega

theorem row_key_inj (y y2 : Int) (h0 : 0 ≤ y) (h2 : 0 ≤ y2)
    (hw : (y >>> (5 : Nat)).toNat = (y2 >>> (5 : Nat)).toNat)
    (hb : (y % 32).toNat = (y2 % 32).toNat) : y = y2 := by
  rw [Int.shiftRight_eq_div_pow, Int.shiftRight_eq_div_pow] at hw
  have : ((2 ^ 5 : Nat) : Int) = 32 := by norm_num
  rw [this] at hw
  omega

theorem draw_row_marked (x y len : Int) (rows : List Nat)
    (calls : List (Int × Int × Int × Int)) (hlen : rows.length = 512)
    (h0 : 0 ≤ y) (h1 : y < 16384) (hm : row_marked rows y) :
    draw_row x y len rows calls = .ok (rows, calls) := by
  have hi := (row_word_index y h0 h1).1
  unfold row_marked at hm
  rw [List.getD_eq_getElem?_getD, List.getElem?_eq_getElem (by omega)] at hm
  unfold draw_row
  simp only [ge_iff_le]
  rw [if_pos h0, List.getElem?_eq_getElem (by omega)]
  simp only []
  rw [if_neg (by simpa using hm)]

theorem draw_row_unmarked (x y len : Int) (rows : List Nat)
    (calls : List (Int × Int × Int × Int)) (hlen : rows.length = 512)
    (h0 : 0 ≤ y) (h1 : y < 16384) (hm : ¬ row_marked rows y) :
    draw_row x y len rows calls
      = .ok (rows.set (y >>> (5 : Nat)).toNat
          (rows.getD (y >>> (5 : Nat)).toNat 0 ||| (1 <<< (y % 32).toNat)),
        calls ++ [(x, y, len, 1)]) := by
  have hi := (row_word_index y h0 h1).1
  unfold row_marked at hm
  rw [List.getD_eq_getElem?_getD, List.getElem?_eq_getElem (by omega)] at hm ⊢
  unfold draw_row
  simp only [ge_iff_le]
  rw [if_pos h0, List.getElem?_eq_getElem (by omega)]
  simp only []
  rw [if_pos (by simpa using hm)]
  rfl

theorem row_marked_set_self (rows : List Nat) (y : Int)
    (hi : (y >>> (5 : Nat)).toNat < rows.length) :
    row_marked (rows.set (y >>> (5 : Nat)).toNat
      (rows.getD (y >>> (5 : Nat)).toNat 0 ||| (1 <<< (y % 32).toNat))) y := by
  unfold row_marked
  rw [List.getD_eq_getElem?_getD, List.getElem?_set_self hi]
  simp only [Option.getD_some, Nat.testBit_or, Nat.one_shiftLeft, Nat.testBit_two_pow_self,
    Bool.or_true]

theorem ren_rect_rows_empty (st : ren_state_t) (X X1 : Int) (hle : X1 ≤ X) (n : Nat) :
    ∀ (y : Int) (d : List ren_pixel_t), ren_rect_rows st X X1 n y d = .ok d := by
  induction n with
  | zero => intro y d; rfl
  | succ n ih =>
    intro y d
    rw [ren_rect_rows]
    have e : ((X1 + y * st.target.width) - (X + y * st.target.width)).toNat = 0 := by omega
    rw [e]
    simp only [ren_rect_row]
    exact ih (y + 1) d

theorem ren_rect_empty_width (st : ren_state_t) (x y w h : Int) (hw : w ≤ 0) :
    ren_rect st x y w h = .ok st.target.data := by
  unfold ren_rect
  simp only []
  apply ren_rect_rows_empty
  split_ifs <;> omega

theorem row_marked_replicate (y : Int) : ¬ row_marked (List.replicate 512 0) y := by
  unfold row_marked
  rw [List.getD_eq_getElem?_getD, List.getElem?_replicate]
  split_ifs <;> simp

theorem ren_fill_row_ok (col : ren_pixel_t) (n : Nat) :
    ∀ (p : Int) (d : List ren_pixel_t), 0 ≤ p → p + n ≤ d.length →
    ∃ d1, ren_fill_row col n p d = .ok (p + n, d1) ∧ d1.length = d.length ∧
      ∀ k : Nat, d1[k]? = if p ≤ k ∧ (k : Int) < p + n ∧ k < d.length then some col
        else d[k]? := by
  induction n with
  | zero =>
    intro p d _ _
    refine ⟨d, by simp [ren_fill_row], rfl, ?_⟩
    intro k
    have : ¬ (p ≤ k ∧ (k : Int) < p + (0 : Nat) ∧ k < d.length) := by omega
    rw [if_neg this]
  | succ n ih =>
    intro p d h0 h1
    have hlt : p.toNat < d.length := by omega
    have hst : store d p col = .ok (d.set p.toNat col) := by
      unfold store
      rw [if_pos ⟨h0, by omega⟩]
    obtain ⟨d2, hd2, hl2, hp2⟩ := ih (p + 1) (d.set p.toNat col) (by omega)
      (by rw [List.length_set]; push_cast at h1 ⊢; omega)
    refine ⟨d2, ?_, by rw [hl2, List.length_set], ?_⟩
    · rw [ren_fill_row, hst]
      simp only []
      rw [hd2]
      congr 2
      push_cast; ring
    · intro k
      rw [hp2, List.length_set]
      by_cases hk : (k : Int) = p
      · have hk2 : p.toNat = k := by omega
        have h3 : ¬ (p + 1 ≤ k ∧ (k : Int) < p + 1 + n ∧ k < d.length) := by omega
        have h4 : (p ≤ k ∧ (k : Int) < p + (n + 1 : Nat) ∧ k < d.length) := by
          push_cast; omega
        rw [if_neg h3, if_pos h4, ← hk2, List.getElem?_set_self hlt]
      · have hk2 : p.toNat ≠ k := by omega
        rw [List.getElem?_set_ne hk2]
        have h5 : (p + 1 ≤ k ∧ (k : Int) < p + 1 + n ∧ k < d.length) ↔
            (p ≤ k ∧ (k : Int) < p + (n + 1 : Nat) ∧ k < d.length) := by
          push_cast; omega
        simp only [h5]

theorem ren_fill_loop_whole (st : ren_state_t) (col : ren_pixel_t) (W H : Int)
    (hclip : st.clip = ⟨0, 0, W, H⟩) (hw : st.target.width = W) (hW : 1 ≤ W) (m : Nat) :
    ∀ (fuel : Nat) (d : List ren_pixel_t), m + 1 ≤ fuel → (m : Int) ≤ H →
      (d.length : Int) = W * H →
    ∃ d1, ren_fill_loop st col fuel ((H - m) * W) d = .ok d1 ∧ d1.length = d.length ∧
      ∀ k : Nat, d1[k]? = if (H - m) * W ≤ k ∧ k < d.length then some col else d[k]? := by
  have hcy : st.clip.y = 0 := by rw [hclip]
  have hch : st.clip.h = H := by rw [hclip]
  have hcw : st.clip.w = W := by rw [hclip]
  induction m with
  | zero =>
    intro fuel d hf _ hlen
    obtain ⟨f, rfl⟩ : ∃ f, fuel = f + 1 := ⟨fuel - 1, by omega⟩
    refine ⟨d, ?_, rfl, ?_⟩
    · rw [ren_fill_loop, hcy, hch, hw]
      rw [if_neg (by simp)]
    · intro k
      have : ¬ ((H - (0 : Nat)) * W ≤ k ∧ k < d.length) := by
        have e : (H - ((0 : Nat) : Int)) * W = W * H := by push_cast; ring
        rw [e]; omega
      rw [if_neg this]
  | succ m ih =>
    intro fuel d hf hm hlen
    obtain ⟨f, rfl⟩ : ∃ f, fuel = f + 1 := ⟨fuel - 1, by omega⟩
    have hpos : 0 ≤ (H - (m + 1 : Nat)) * W := Int.mul_nonneg (by omega) (by omega)
    have e1 : (H - ((m + 1 : Nat) : Int)) * W + W = (H - (m : Int)) * W := by push_cast; ring
    have hle : (H - (m : Int)) * W ≤ H * W :=
      Int.mul_le_mul_of_nonneg_right (by omega) (by omega)
    have e2 : H * W = W * H := by ring
    obtain ⟨d1, hd1, hl1, hp1⟩ := ren_fill_row_ok col W.toNat ((H - (m + 1 : Nat)) * W) d hpos
      (by rw [Int.toNat_of_nonneg (by omega)]; omega)
    obtain ⟨d2, hd2, hl2, hp2⟩ := ih f d1 (by omega) (by omega) (by rw [hl1]; exact hlen)
    refine ⟨d2, ?_, by rw [hl2, hl1], ?_⟩
    · rw [ren_fill_loop, hcy, hch, hw, hcw]
      have hcond : (H - ((m + 1 : Nat) : Int)) * W < (0 + H) * W := by
        have : (0 + H) * W = H * W := by ring
        rw [this]; omega
      rw [if_pos hcond, hd1]
      simp only []
      rw [Int.toNat_of_nonneg (by omega), e1]
      exact hd2
    · intro k
      rw [hp2, hp1, hl1]
      rw [Int.toNat_of_nonneg (by omega), e1]
      by_cases hk : (H - (m : Int)) * W ≤ k ∧ k < d.length
      · rw [if_pos hk, if_pos ⟨by omega, hk.2⟩]
      · rw [if_neg hk]
        by_cases hk2 : (H - ((m + 1 : Nat) : Int)) * W ≤ k ∧ k < d.length
        · rw [if_pos ⟨hk2.1, by omega, hk2.2⟩, if_pos hk2]
        · rw [if_neg hk2, if_neg (fun h => hk2 ⟨h.1, h.2.2⟩)]

/-! ## The claims, continued -/

set_option maxRecDepth 20000 in
/-- Claim C11, evaluated where it fails: copying the buffer returned by
`ren_blank_buffer(2, 2)` gives a new block whose header has the same width and
height and whose `data` pointer is the one of the source, so both buffers read
the same pixel sequence; after the write `copy->data[0] = white` the pixel 0
read through the source is white. -/
theorem ren_copy_buffer_aliases_source :
    ∃ heap1 copy heap2,
      ren_copy_buffer (ren_blank_buffer [] 2 2).1 (ren_blank_buffer [] 2 2).2
        = .ok (heap1, copy) ∧
      copy ≠ (ren_blank_buffer [] 2 2).2 ∧
      (heap1[copy]?).map (fun b => (b.header.width, b.header.height)) = some (2, 2) ∧
      (heap1[copy]?).map (fun b => b.header.data) = some (ren_blank_buffer [] 2 2).2 ∧
      heap_pixels heap1 copy = heap_pixels heap1 (ren_blank_buffer [] 2 2).2 ∧
      heap_pixels heap1 (ren_blank_buffer [] 2 2).2
        = some [⟨0, 0, 0, 0⟩, ⟨0, 0, 0, 0⟩, ⟨0, 0, 0, 0⟩, ⟨0, 0, 0, 0⟩] ∧
      heap_write heap1 copy 0 white = .ok heap2 ∧
      heap_pixels heap2 (ren_blank_buffer [] 2 2).2
        = some [white, ⟨0, 0, 0, 0⟩, ⟨0, 0, 0, 0⟩, ⟨0, 0, 0, 0⟩] :=
  ⟨_, _, _, rfl, by decide, by decide, by decide, by decide, by decide, rfl, by decide⟩

set_option maxRecDepth 100000 in
/-- Claim C13, evaluated where it fails: `ren_circ(0, 0, 16384)` on the 4 x 4
target is not rejected by the bounding-box test and its first round reaches
`draw_row` with `y_tmp = 16384`, whose word index `16384 >> 5 = 512` lies
outside `rows[512]`. -/
theorem ren_circ_row_index_out_of_bounds :
    ¬ ren_circ_rejects (state4 ⟨0, 0, 4, 4⟩).clip 0 0 16384 ∧
    ((16384 : Int) >>> (5 : Nat)).toNat = 512 ∧
    ren_circ_calls (state4 ⟨0, 0, 4, 4⟩).clip 0 0 16384 = .error .out_of_bounds ∧
    ren_circ (state4 ⟨0, 0, 4, 4⟩) 0 0 16384 = .error .out_of_bounds := by
  decide

set_option maxRecDepth 100000 in
/-- Claim C14, evaluated where it fails: on the 1 x 16385 target,
`ren_circ(0, 16384, 0)` is not rejected by the bounding-box test and reads
`rows[512]`, outside the row bitmask, before any row is drawn. -/
theorem ren_circ_radius_zero_row_16384 :
    ¬ ren_circ_rejects tall_state.clip 0 16384 0 ∧
    ren_circ tall_state 0 16384 0 = .error .out_of_bounds := by
  decide

/-- The part of claim C14 that holds: for a centre row `0 <= y < 16384` that is
not rejected by the bounding-box test, `ren_circ(x, y, 0)` makes exactly one
`ren_rect` call, for row `y` and of width 0, and returns the target storage
unchanged. -/
theorem ren_circ_radius_zero (st : ren_state_t) (x y : Int) (h0 : 0 ≤ y) (h1 : y < 16384)
    (hrej : ¬ ren_circ_rejects st.clip x y 0) :
    ren_circ_calls st.clip x y 0 = .ok [(x, y, 0, 1)] ∧
    ren_circ st x y 0 = .ok st.target.data := by
  have hlen : (List.replicate 512 0 : List Nat).length = 512 := List.length_replicate _ _
  have hcalls : ren_circ_calls st.clip x y 0 = .ok [(x, y, 0, 1)] := by
    unfold ren_circ_rejects at hrej
    unfold ren_circ_calls
    simp only [abs_zero, add_zero, sub_zero] at hrej ⊢
    rw [if_neg hrej]
    have hf : ((0 : Int) + 2).toNat = 1 + 1 := by decide
    rw [hf, ren_circ_loop]
    simp only [ge_iff_le, le_refl, if_true, add_zero, sub_zero, zero_mul]
    have hi := (row_word_index y h0 h1).1
    rw [draw_row_unmarked x y 0 _ [] hlen h0 h1 (row_marked_replicate y)]
    simp only [List.nil_append]
    have hm := row_marked_set_self (List.replicate 512 0) y (by rw [hlen]; exact hi)
    have hlen2 : (List.set (List.replicate 512 0) (y >>> (5 : Nat)).toNat
        ((List.replicate 512 0).getD (y >>> (5 : Nat)).toNat 0
          ||| 1 <<< (y % 32).toNat)).length = 512 := by
      rw [List.length_set]; exact hlen
    rw [draw_row_marked x y 0 _ _ hlen2 h0 h1 hm]
    simp only []
    rw [draw_row_marked x y 0 _ _ hlen2 h0 h1 hm]
    simp only []
    rw [draw_row_marked x y 0 _ _ hlen2 h0 h1 hm]
    simp only []
    rw [if_neg (by decide)]
    rw [ren_circ_loop]
    rw [if_neg (by decide)]
  refine ⟨hcalls, ?_⟩
  unfold ren_circ
  rw [hcalls]
  simp only [ren_rect_seq]
  rw [ren_rect_empty_width _ x y 0 1 (le_refl 0)]
  rfl

/-- Claim C15, evaluated where it fails: for the text "abc", a font with
`glyph_w = 3` and the start position (10, 20), `ren_text` blits at the x
coordinates 11, 14, 17 (`x + i * glyph_w + 1`), not at 10, 14, 18
(`x + i * (glyph_w + 1)`); it makes one blit per character. -/
theorem ren_text_glyph_positions :
    ren_text_calls ⟨3, 5, blank4⟩ 10 20 [97, 98, 99, 0] 0
      = .ok [(11, 20, ⟨0, 64, 3, 5⟩), (14, 20, ⟨0, 64, 3, 5⟩), (17, 20, ⟨0, 64, 3, 5⟩)] ∧
    ((10 : Int) + 0 * (3 + 1), (10 : Int) + 1 * (3 + 1), (10 : Int) + 2 * (3 + 1))
      = (10, 14, 18) := by
  decide

set_option maxRecDepth 20000 in
/-- Claim C16, evaluated where it fails: with blend `add`, of whose colour one
application adds 15 per channel, `ren_box(1, 1, 1, 2)` leaves 30 in the border
pixels (1, 1) and (1, 2): the left and the right side rectangle are the same
column, which is blended twice. -/
theorem ren_box_width_one_blends_twice :
    add_state4.clip_in_target ∧
    on_border add_state4 1 1 1 2 1 1 ∧ add_state4.in_clip 1 1 ∧
    add_state4.target.data[1 + 1 * 4]? = some ⟨0, 0, 0, 0⟩ ∧
    ren_blend_add ⟨0, 0, 0, 0⟩ add_state4.color = ⟨15, 15, 15, 0⟩ ∧
    ∃ d1, ren_box add_state4 1 1 1 2 = .ok d1 ∧ d1[1 + 1 * 4]? = some ⟨30, 30, 30, 0⟩ :=
  ⟨by decide, by decide, by decide, by decide, by decide, _, rfl, by decide⟩

/-- The part of claim C16 that holds: when the clip rectangle lies inside the
target and the four rectangles of `ren_box` do not overlap (`w >= 2`, and
`h >= 2` or `w = 2`), `ren_box` blends the colour once into each border pixel of
the translated rectangle that lies inside the clip rectangle and leaves every
other pixel as it was. -/
theorem ren_box_outline (st : ren_state_t) (x y w h : Int) (hc : st.clip_in_target)
    (hw : 2 ≤ w) (hh : 2 ≤ h ∨ w = 2) :
    ∃ d1, ren_box st x y w h = .ok d1 ∧ d1.length = st.target.data.length ∧
      ∀ i j : Int, 0 ≤ i → i < st.target.width → 0 ≤ j → j < st.target.height →
        d1[(i + j * st.target.width).toNat]? =
          if on_border st x y w h i j ∧ st.in_clip i j
          then (st.target.data[(i + j * st.target.width).toNat]?).map
            (fun v => st.blend v st.color)
          else st.target.data[(i + j * st.target.width).toNat]? := by
  have hdis : ∀ i j : Int, (ren_box_calls x y w h).Pairwise
      (fun c c2 => ¬ (rect_covers st c i j ∧ rect_covers st c2 i j)) := by
    intro i j
    simp only [ren_box_calls, List.pairwise_cons, List.mem_cons, List.mem_singleton,
      rect_covers, forall_eq_or_imp, forall_eq, List.not_mem_nil, List.Pairwise.nil,
      false_imp_iff, implies_true, and_true]
    omega
  obtain ⟨d1, hd1, hl1, hp1⟩ := ren_rect_seq_once st hc (ren_box_calls x y w h) hdis
  refine ⟨d1, hd1, hl1, ?_⟩
  intro i j hi0 hi hj0 hj
  rw [hp1 i j hi0 hi hj0 hj]
  have hiff : (∃ c ∈ ren_box_calls x y w h, rect_covers st c i j) ↔ on_border st x y w h i j := by
    simp only [ren_box_calls, List.mem_cons, List.mem_singleton, rect_covers, on_border,
      exists_eq_or_imp, exists_eq_left, List.not_mem_nil, false_and, exists_false, or_false]
    omega
  simp only [hiff]

set_option maxRecDepth 20000 in
/-- Claim C17, evaluated where it fails: with translation (2, 0) and the whole
4 x 4 target as clip rectangle, `ren_circ(-2, 1, 1)` returns early (its test
compares the untranslated `x + |r| = -1` with `clip.x = 0`) and leaves the
target as it was, while its row loop without the test changes the target pixel
(0, 1). -/
theorem ren_circ_rejection_ignores_translation :
    ren_circ_rejects translated_state4.clip (-2) 1 1 ∧
    ren_circ translated_state4 (-2) 1 1 = .ok translated_state4.target.data ∧
    translated_state4.target.data[0 + 1 * 4]? = some ⟨0, 0, 0, 0⟩ ∧
    ∃ d1, ren_circ_unguarded translated_state4 (-2) 1 1 = .ok d1 ∧
      d1[0 + 1 * 4]? = some ⟨254, 254, 254, 255⟩ :=
  ⟨by decide, by decide, by decide, _, rfl, by decide⟩

/-- Claim C18, evaluated where it fails: with the clip rectangle (0, 0, 0, 4)
on the 4 x 4 target, of width zero and inside the target, the loop of
`ren_fill` has not ended after any number of rounds: its pointer never
advances. -/
theorem ren_fill_zero_width_never_returns :
    (state4 ⟨0, 0, 0, 4⟩).clip_in_target ∧
    ∀ fuel : Nat, ren_fill fuel (state4 ⟨0, 0, 0, 4⟩) white = .error .out_of_fuel := by
  refine ⟨by decide, ?_⟩
  intro fuel
  unfold ren_fill
  generalize (state4 ⟨0, 0, 0, 4⟩).target.data = d
  induction fuel generalizing d with
  | zero => rfl
  | succ n ih =>
    have h : ren_fill_loop (state4 ⟨0, 0, 0, 4⟩) white (n + 1) (state4 ⟨0, 0, 0, 4⟩).clip.y d
        = ren_fill_loop (state4 ⟨0, 0, 0, 4⟩) white n (state4 ⟨0, 0, 0, 4⟩).clip.y d := by
      rw [ren_fill_loop]
      rw [if_pos (by decide)]
      rfl
    rw [h]
    exact ih d

/-- Claim C19: when the clip rectangle is the whole target, `(0, 0, width,
height)` with `width >= 1` and `height >= 1`, `ren_fill` returns (after
`height + 1` tests of its loop condition) the storage in which every one of the
`width * height` pixels is the colour.  No write goes to an index
`>= width * height`: such a write is a `Fault.out_of_bounds`, and the result is
not a fault. -/
theorem ren_fill_whole_target (st : ren_state_t) (col : ren_pixel_t) (fuel : Nat)
    (hclip : st.clip = ⟨0, 0, st.target.width, st.target.height⟩)
    (hW : 1 ≤ st.target.width) (hH : 1 ≤ st.target.height)
    (hlen : (st.target.data.length : Int) = st.target.width * st.target.height)
    (hfuel : st.target.height.toNat + 1 ≤ fuel) :
    ren_fill fuel st col = .ok (List.replicate (st.target.width * st.target.height).toNat col)
    ∧ ren_fill fuel st col ≠ .error .out_of_bounds := by
  obtain ⟨d1, hd1, hl1, hp1⟩ := ren_fill_loop_whole st col st.target.width st.target.height
    hclip rfl hW st.target.height.toNat fuel st.target.data hfuel (by omega) hlen
  have hcy : st.clip.y = 0 := by rw [hclip]
  have h0 : (st.target.height - (st.target.height.toNat : Int)) * st.target.width = 0 := by
    rw [Int.toNat_of_nonneg (by omega)]; ring
  rw [h0] at hd1 hp1
  have hres : ren_fill fuel st col = .ok d1 := by
    unfold ren_fill
    rw [hcy]
    exact hd1
  have heq : d1 = List.replicate (st.target.width * st.target.height).toNat col := by
    apply List.ext_getElem?
    intro k
    rw [hp1]
    by_cases hk : k < st.target.data.length
    · rw [if_pos ⟨by omega, hk⟩, List.getElem?_replicate]
      rw [if_pos (by omega)]
    · rw [if_neg (fun h => hk h.2), List.getElem?_eq_none (by omega),
        List.getElem?_eq_none (by rw [List.length_replicate]; omega)]
  rw [hres, heq]
  exact ⟨rfl, by simp⟩

set_option maxRecDepth 20000 in
/-- Witness for `ren_fill_whole_target`: the 4 x 4 target with the whole target
as clip rectangle. -/
theorem ren_fill_whole_target_witness :
    ren_fill 5 (state4 ⟨0, 0, 4, 4⟩) white = .ok (List.replicate 16 white) :=
  (ren_fill_whole_target (state4 ⟨0, 0, 4, 4⟩) white 5 rfl (by decide) (by decide)
    (by decide) (by decide)).1

/-- Claim C20: for 8-bit pixels the sums that `ren_blend_alpha` passes to
`color_add` are at most 254 for r, g, b and at most 255 for alpha, so the clamp
of `color_add` is never applied and the result is the plain sum. -/
theorem ren_blend_alpha_never_clamps (dst src : ren_pixel_t) (hd : dst.valid)
    (hs : src.valid) :
    mul dst.r (255 - src.a) + mul src.r src.a ≤ 254 ∧
    mul dst.g (255 - src.a) + mul src.g src.a ≤ 254 ∧
    mul dst.b (255 - src.a) + mul src.b src.a ≤ 254 ∧
    mul dst.a (255 - src.a) + src.a ≤ 255 ∧
    ren_blend_alpha dst src =
      ⟨mul dst.r (255 - src.a) + mul src.r src.a, mul dst.g (255 - src.a) + mul src.g src.a,
        mul dst.b (255 - src.a) + mul src.b src.a, mul dst.a (255 - src.a) + src.a⟩ := by
  obtain ⟨h1, h2, h3, h4⟩ := hs
  obtain ⟨g1, g2, g3, g4⟩ := hd
  have key : ∀ d s : Nat, d < 256 → s < 256 →
      mul d (255 - src.a) + mul s src.a ≤ 254 := by
    intro d s hd hs
    unfold mul
    rw [Nat.shiftRight_eq_div_pow, Nat.shiftRight_eq_div_pow]
    have a1 : d * (255 - src.a) ≤ 255 * (255 - src.a) := Nat.mul_le_mul_right _ (by omega)
    have a2 : s * src.a ≤ 255 * src.a := Nat.mul_le_mul_right _ (by omega)
    omega
  have keya : ∀ d : Nat, d < 256 → mul d (255 - src.a) + src.a ≤ 255 := by
    intro d hd
    unfold mul
    rw [Nat.shiftRight_eq_div_pow]
    have a1 : d * (255 - src.a) ≤ 255 * (255 - src.a) := Nat.mul_le_mul_right _ (by omega)
    omega
  have k1 := key dst.r src.r g1 h1
  have k2 := key dst.g src.g g2 h2
  have k3 := key dst.b src.b g3 h3
  have k4 := keya dst.a g4
  refine ⟨k1, k2, k3, k4, ?_⟩
  simp only [ren_blend_alpha, color_add_eq, to_u8_complement _ h4]
  rw [color_mul_eq _ _ g1 (by omega), color_mul_eq _ _ g2 (by omega),
    color_mul_eq _ _ g3 (by omega), color_mul_eq _ _ g4 (by omega),
    color_mul_eq _ _ h1 h4, color_mul_eq _ _ h2 h4, color_mul_eq _ _ h3 h4]
  unfold mul at k1 k2 k3 k4
  simp only [saturating_add, mul]
  rw [if_neg (by omega), if_neg (by omega), if_neg (by omega), if_neg (by omega)]

/-- Witness for `ren_blend_alpha_never_clamps`. -/
theorem ren_blend_alpha_never_clamps_witness :
    (⟨255, 255, 255, 255⟩ : ren_pixel_t).valid ∧ (⟨255, 255, 255, 128⟩ : ren_pixel_t).valid ∧
    mul 255 (255 - 128) + mul 255 128 ≤ 254 :=
  ⟨by decide, by decide,
    (ren_blend_alpha_never_clamps ⟨255, 255, 255, 255⟩ ⟨255, 255, 255, 128⟩ (by decide)
      (by decide)).1⟩

end Tetrix
